import Mathlib

/-!
Verification development for the R1CS Bulletproofs verifier
(`src/r1cs/verifier.rs`, helpers in `src/util.rs`).

The embedding is parametric in the scalar field `F` (the source's `Fr`,
an arbitrary prime field supplied by the curve backend) and the curve
point type `G` (the source's `G1Affine`); the group identity is written
`0`.  The Merlin transcript, the error enum, the generator tables and
the inner-product sub-verifier live outside the two source files, so
those pieces are modelled from the specification (their definitions say
so in their doc comments); everything else is translated directly from
the Rust source.
-/

set_option linter.unusedVariables false
set_option linter.unusedSectionVars false
set_option linter.unnecessarySeqFocus false

namespace BP

/-- Modelled from the spec: transcript labels (ASCII byte strings in the
source, e.g. `b"A_I1"`, and the three domain separators `r1cs v1`,
`r1cs-1phase`, `r1cs-2phase`).  The label set used by the verifier is
finite, so it is represented as an inductive. -/
inductive Label where
  | V | m | A_I1 | A_O1 | S1 | A_I2 | A_O2 | S2
  | T_1 | T_3 | T_4 | T_5 | T_6
  | t_x | t_x_blinding | e_blinding
  | y | z | u | x | w | r
  | r1cs_v1 | r1cs_1phase | r1cs_2phase
  deriving DecidableEq, Repr

/-- The five-way variable tag of `src/r1cs` (`Variable` enum): wires of
multiplication gate `i`, the `i`-th committed input, or the constant 1. -/
inductive Variable where
  | MultiplierLeft (i : Nat)
  | MultiplierRight (i : Nat)
  | MultiplierOutput (i : Nat)
  | Committed (i : Nat)
  | One
  deriving DecidableEq, Repr

/-- A linear combination: an ordered list of `(Variable, Fr)` terms
(duplicates permitted, summed during flattening). -/
structure LinearCombination (F : Type) where
  terms : List (Variable × F)
  deriving DecidableEq, Repr

/-- Modelled from the spec: one message of the Fiat-Shamir transcript.
The transcript is the ordered list of everything appended to it:
domain separators, labelled `u64`s, points, scalars, and a marker for
each challenge drawn (merlin mixes draws into the sponge state, so a
draw changes the state just as an append does). -/
inductive TEvent (F G : Type) where
  | domSep (l : Label)
  | u64 (l : Label) (n : Nat)
  | point (l : Label) (p : G)
  | scalar (l : Label) (s : F)
  | challengeDraw (l : Label)
  deriving DecidableEq, Repr

/-- Modelled from the spec: the transcript state is the full ordered
message history (two transcripts are "byte-identical" iff these lists
are equal). -/
abbrev Transcript (F G : Type) := List (TEvent F G)

/-- Modelled from the spec (`src/errors.rs` is not in src/): the closed
error enum surfaced by the verifier. -/
inductive R1CSError where
  | invalidGeneratorsLength
  | verificationError
  | gadgetError (msg : String)
  deriving DecidableEq, Repr

/-- Outcome tag for code that can also panic (Rust `unwrap` /
out-of-bounds indexing), which is distinct from returning an error. -/
inductive VErr where
  | panic
  | r1cs (e : R1CSError)
  deriving DecidableEq, Repr

deriving instance DecidableEq for Except

/-- Modelled from the spec (`src/generators.rs` is not in src/): the
`BulletproofGens` table, of which `verification_scalars` only reads
`gens_capacity`. -/
structure BulletproofGens where
  gens_capacity : Nat
  deriving DecidableEq, Repr

/-- The embedded inner-product proof record: `log2(padded_n)` pairs
`(L, R)` plus the terminal scalars `a`, `b`. -/
structure IppProof (F G : Type) where
  L_vec : List G
  R_vec : List G
  a : F
  b : F
  deriving DecidableEq, Repr

/-- The R1CS proof wire record (`R1CSProof`). -/
structure R1CSProof (F G : Type) where
  A_I1 : G
  A_O1 : G
  S1 : G
  A_I2 : G
  A_O2 : G
  S2 : G
  T_1 : G
  T_3 : G
  T_4 : G
  T_5 : G
  T_6 : G
  t_x : F
  t_x_blinding : F
  e_blinding : F
  ipp_proof : IppProof F G
  deriving DecidableEq, Repr

/-- One operation a phase-2 callback may perform through the
`RandomizingVerifier` API (`ConstraintSystem` plus
`RandomizedConstraintSystem::challenge_scalar`); `fail` is the callback
returning an error.  A stored callback is modelled as the list of
operations it performs. -/
inductive RVOp (F : Type) where
  | multiply (left right : LinearCombination F)
  | allocate
  | allocateMultiplier
  | constrain (lc : LinearCombination F)
  | challenge (l : Label)
  | fail (e : R1CSError)
  deriving DecidableEq, Repr

/-- The mutable state of a `Verifier` apart from the deferred-callback
list: transcript, collected constraints, gate count `num_vars`, the
committed points `V`, and the pending half-gate index. -/
structure VState (F G : Type) where
  transcript : Transcript F G
  constraints : List (LinearCombination F)
  num_vars : Nat
  V : List G
  pending_multiplier : Option Nat
  deriving DecidableEq, Repr

/-- The `Verifier` constraint system: its state plus the deferred
phase-2 callbacks (each a list of `RVOp`s). -/
structure Verifier (F G : Type) where
  st : VState F G
  deferred_constraints : List (List (RVOp F))
  deriving DecidableEq, Repr

section Ops

variable {F : Type} [Field F] {G : Type} [Zero G] [DecidableEq G]

/-- Modelled from the spec: a challenge oracle standing for merlin's
sponge output — a deterministic function of the transcript state and
the label. -/
abbrev ChalOracle (F G : Type) := Transcript F G → Label → F

/-- Modelled from the spec: `append_point`. -/
def appendPointT (t : Transcript F G) (l : Label) (p : G) : Transcript F G :=
  t ++ [TEvent.point l p]

/-- Modelled from the spec: `append_scalar`. -/
def appendScalarT (t : Transcript F G) (l : Label) (s : F) : Transcript F G :=
  t ++ [TEvent.scalar l s]

/-- Modelled from the spec: `append_u64`. -/
def appendU64T (t : Transcript F G) (l : Label) (n : Nat) : Transcript F G :=
  t ++ [TEvent.u64 l n]

/-- Modelled from the spec: appending a domain separator. -/
def domSepT (t : Transcript F G) (l : Label) : Transcript F G :=
  t ++ [TEvent.domSep l]

/-- Modelled from the spec: `challenge_scalar` returns the oracle's
output on the current state and advances the state by recording the
draw. -/
def challenge_scalar (oracle : ChalOracle F G) (t : Transcript F G) (l : Label) :
    F × Transcript F G :=
  (oracle t l, t ++ [TEvent.challengeDraw l])

/-- Modelled from the spec: `validate_and_append_point` rejects the
group identity with `VerificationError` and otherwise appends the
point. -/
def validate_and_append_point (t : Transcript F G) (l : Label) (p : G) :
    Except R1CSError (Transcript F G) :=
  if p = 0 then Except.error R1CSError.verificationError
  else Except.ok (t ++ [TEvent.point l p])

/-- The `Verifier::new`: appends the `r1cs v1` domain separator and starts
with empty state. -/
def Verifier.new (t : Transcript F G) : Verifier F G :=
  ⟨⟨domSepT t Label.r1cs_v1, [], 0, [], none⟩, []⟩

/-- The `Verifier::commit`: append the commitment to `V` and to the
transcript under label `V`, return `Committed(|V|-1)`. -/
def commit (st : VState F G) (c : G) : VState F G × Variable :=
  ({ st with V := st.V ++ [c],
             transcript := appendPointT st.transcript Label.V c },
   Variable.Committed st.V.length)

/-- The `ConstraintSystem::constrain` for the verifier: push the linear
combination, with no validation of its variables. -/
def constrain (st : VState F G) (lc : LinearCombination F) : VState F G :=
  { st with constraints := st.constraints ++ [lc] }

/-- The `ConstraintSystem::multiply` for the verifier: allocate gate
`i = num_vars`, append `(MultiplierLeft(i), -1)` to `left` and
`(MultiplierRight(i), -1)` to `right`, push both as constraints. -/
def multiply (st : VState F G) (left right : LinearCombination F) :
    VState F G × (Variable × Variable × Variable) :=
  let i := st.num_vars
  let l_var := Variable.MultiplierLeft i
  let r_var := Variable.MultiplierRight i
  let o_var := Variable.MultiplierOutput i
  let st1 := { st with num_vars := i + 1 }
  let st2 := constrain st1 ⟨left.terms ++ [(l_var, -1)]⟩
  let st3 := constrain st2 ⟨right.terms ++ [(r_var, -1)]⟩
  (st3, (l_var, r_var, o_var))

/-- The `ConstraintSystem::allocate` for the verifier: paired single-wire
allocation driven by `pending_multiplier`; never fails. -/
def allocate (st : VState F G) : Except R1CSError (VState F G × Variable) :=
  match st.pending_multiplier with
  | none =>
      Except.ok ({ st with num_vars := st.num_vars + 1,
                           pending_multiplier := some st.num_vars },
                 Variable.MultiplierLeft st.num_vars)
  | some i =>
      Except.ok ({ st with pending_multiplier := none },
                 Variable.MultiplierRight i)

/-- The `ConstraintSystem::allocate_multiplier` for the verifier: a fresh
gate, all three wires, no constraint, never fails. -/
def allocate_multiplier (st : VState F G) :
    Except R1CSError (VState F G × (Variable × Variable × Variable)) :=
  Except.ok ({ st with num_vars := st.num_vars + 1 },
             (Variable.MultiplierLeft st.num_vars,
              Variable.MultiplierRight st.num_vars,
              Variable.MultiplierOutput st.num_vars))

/-- Run one `RandomizingVerifier` operation of a phase-2 callback. -/
def runRVOp (oracle : ChalOracle F G) (st : VState F G) :
    RVOp F → Except R1CSError (VState F G)
  | RVOp.multiply left right => Except.ok (multiply st left right).1
  | RVOp.allocate =>
      match allocate st with
      | Except.error e => Except.error e
      | Except.ok p => Except.ok p.1
  | RVOp.allocateMultiplier =>
      match allocate_multiplier st with
      | Except.error e => Except.error e
      | Except.ok p => Except.ok p.1
  | RVOp.constrain lc => Except.ok (constrain st lc)
  | RVOp.challenge l =>
      Except.ok { st with transcript := (challenge_scalar oracle st.transcript l).2 }
  | RVOp.fail e => Except.error e

/-- Run the operations of one callback in order; the first error
aborts. -/
def runRVOps (oracle : ChalOracle F G) (st : VState F G) :
    List (RVOp F) → Except R1CSError (VState F G)
  | [] => Except.ok st
  | op :: rest =>
      match runRVOp oracle st op with
      | Except.error e => Except.error e
      | Except.ok st' => runRVOps oracle st' rest

/-- Run the drained callbacks in insertion order. -/
def runCallbacks (oracle : ChalOracle F G) (st : VState F G) :
    List (List (RVOp F)) → Except R1CSError (VState F G)
  | [] => Except.ok st
  | cb :: rest =>
      match runRVOps oracle st cb with
      | Except.error e => Except.error e
      | Except.ok st' => runCallbacks oracle st' rest

/-- The `create_randomized_constraints`: clear `pending_multiplier`; with no
deferred callbacks append the 1-phase separator, otherwise append the
2-phase separator and drain the callbacks in order (so the returned
verifier always has an empty deferred list). -/
def create_randomized_constraints (oracle : ChalOracle F G) (v : Verifier F G) :
    Except R1CSError (Verifier F G) :=
  let st0 := { v.st with pending_multiplier := none }
  match v.deferred_constraints with
  | [] =>
      Except.ok ⟨{ st0 with transcript := domSepT st0.transcript Label.r1cs_1phase }, []⟩
  | cb :: rest =>
      match runCallbacks oracle
          { st0 with transcript := domSepT st0.transcript Label.r1cs_2phase }
          (cb :: rest) with
      | Except.error e => Except.error e
      | Except.ok st' => Except.ok ⟨st', []⟩

end Ops

/-- Fuel-driven core of `next_power_of_two`: double `power` until it
reaches `n`. -/
def np2go (n : Nat) : Nat → Nat → Nat
  | 0, power => power
  | fuel + 1, power => if power < n then np2go n fuel (power * 2) else power

/-- Rust's `usize::next_power_of_two`: the smallest power of two that is
`≥ n` (and `1` for `n = 0`). -/
def next_power_of_two (n : Nat) : Nat := np2go n n 1

section Flatten

variable {F : Type} [Field F] {G : Type} [Zero G] [DecidableEq G]

/-- The five flattened weight outputs `(wL, wR, wO, wV, wc)`. -/
structure Flattened (F : Type) where
  wL : List F
  wR : List F
  wO : List F
  wV : List F
  wc : F
  deriving DecidableEq, Repr

/-- One term of one constraint during flattening, at weight `e`:
`wL[i] += e*c` / `wR[i] += e*c` / `wO[i] += e*c` /
`wV[i] -= e*c` / `wc -= e*c`; out-of-bounds indexing is a Rust panic,
modelled as `none`. -/
def applyTerm (w : Flattened F) (e : F) : Variable × F → Option (Flattened F)
  | (Variable.MultiplierLeft i, c) =>
      if h : i < w.wL.length then
        some { w with wL := w.wL.set i (w.wL.get ⟨i, h⟩ + e * c) }
      else none
  | (Variable.MultiplierRight i, c) =>
      if h : i < w.wR.length then
        some { w with wR := w.wR.set i (w.wR.get ⟨i, h⟩ + e * c) }
      else none
  | (Variable.MultiplierOutput i, c) =>
      if h : i < w.wO.length then
        some { w with wO := w.wO.set i (w.wO.get ⟨i, h⟩ + e * c) }
      else none
  | (Variable.Committed i, c) =>
      if h : i < w.wV.length then
        some { w with wV := w.wV.set i (w.wV.get ⟨i, h⟩ - e * c) }
      else none
  | (Variable.One, c) => some { w with wc := w.wc - e * c }

/-- All terms of one constraint, at weight `e`. -/
def applyLC (e : F) : Flattened F → List (Variable × F) → Option (Flattened F)
  | w, [] => some w
  | w, tm :: tms =>
      match applyTerm w e tm with
      | none => none
      | some w' => applyLC e w' tms

/-- All constraints in insertion order; the weight starts at the given
`e` and is multiplied by `z` after each constraint. -/
def applyAll (z : F) : Flattened F → F → List (LinearCombination F) → Option (Flattened F)
  | w, _, [] => some w
  | w, e, lc :: rest =>
      match applyLC e w lc.terms with
      | none => none
      | some w' => applyAll z w' (e * z) rest

/-- The `Verifier::flattened_constraints`: zero-initialised weight vectors
of lengths `num_vars`/`|V|`, then every constraint applied with weights
`z, z², …`; `none` models the panic on an out-of-range variable
index. -/
def flattened_constraints (st : VState F G) (z : F) : Option (Flattened F) :=
  applyAll z
    ⟨List.replicate st.num_vars 0, List.replicate st.num_vars 0,
     List.replicate st.num_vars 0, List.replicate st.V.length 0, 0⟩
    z st.constraints

end Flatten

section VS

variable {F : Type} [Field F] [DecidableEq F] {G : Type} [Zero G] [DecidableEq G]

/-- The `util::exp_iter(x).take(k)` starting from accumulator `cur`:
`[cur, cur*x, cur*x², …]` of length `k`. -/
def expTake (x : F) : Nat → F → List F
  | 0, _ => []
  | k + 1, cur => cur :: expTake x k (cur * x)

/-- The `util::exp_iter(x).take(k)`: the first `k` powers `x⁰, x¹, …`. -/
def exp_iter_take (x : F) (k : Nat) : List F := expTake x k 1

/-- Modelled from the spec (`src/inner_product_proof.rs` is not in
src/): `inner_product(a, b) = Σ aᵢ·bᵢ`. -/
def inner_product (a b : List F) : F :=
  ((a.zip b).map (fun p => p.1 * p.2)).sum

/-- Modelled from the spec: the inner-product sub-verifier, treated as a
black box taking `padded_n` and the transcript and returning
`(u_sq, u_inv_sq, s)` plus the advanced transcript, or failing. -/
abbrev IppVerifier (F G : Type) :=
  Nat → Transcript F G → Option ((List F × List F × List F) × Transcript F G)

/-- Everything `verification_scalars` has computed by the time the IPP
sub-verifier returns: the post-phase-2 verifier, the phase counts, the
challenges, the flattened weights, the IPP outputs, and the transcript
`t` as it stands after the IPP call (the state `r` is later drawn from
a clone of). -/
structure VSMid (F G : Type) where
  ver : Verifier F G
  n1 : Nat
  n : Nat
  y : F
  z : F
  u : F
  x : F
  w : F
  wL : List F
  wR : List F
  wO : List F
  wV : List F
  wc : F
  u_sq : List F
  u_inv_sq : List F
  s : List F
  t : Transcript F G

/-- Lines 349–411 of `verification_scalars`: the `m` suffix, the
validated `A_I1/A_O1/S1` appends, the phase-2 callbacks, the capacity
check, the `A_I2/A_O2/S2` appends, the challenge draws `y,z,u,x,w`
interleaved with the `T_*` validations and revealed-scalar appends,
the flattening, and the IPP sub-verifier call. -/
def vsMid (oracle : ChalOracle F G) (ippVS : IppVerifier F G) (v : Verifier F G)
    (proof : R1CSProof F G) (bp_gens : BulletproofGens) : Except VErr (VSMid F G) :=
  let t0 := appendU64T v.st.transcript Label.m v.st.V.length
  let n1 := v.st.num_vars
  match validate_and_append_point t0 Label.A_I1 proof.A_I1 with
  | Except.error e => Except.error (VErr.r1cs e)
  | Except.ok t1 =>
  match validate_and_append_point t1 Label.A_O1 proof.A_O1 with
  | Except.error e => Except.error (VErr.r1cs e)
  | Except.ok t2 =>
  match validate_and_append_point t2 Label.S1 proof.S1 with
  | Except.error e => Except.error (VErr.r1cs e)
  | Except.ok t3 =>
  match create_randomized_constraints oracle { v with st := { v.st with transcript := t3 } } with
  | Except.error e => Except.error (VErr.r1cs e)
  | Except.ok v2 =>
  let n := v2.st.num_vars
  let padded_n := next_power_of_two n
  if bp_gens.gens_capacity < padded_n then
    Except.error (VErr.r1cs R1CSError.invalidGeneratorsLength)
  else
  let t4 := appendPointT v2.st.transcript Label.A_I2 proof.A_I2
  let t5 := appendPointT t4 Label.A_O2 proof.A_O2
  let t6 := appendPointT t5 Label.S2 proof.S2
  let yp := challenge_scalar oracle t6 Label.y
  let zp := challenge_scalar oracle yp.2 Label.z
  match validate_and_append_point zp.2 Label.T_1 proof.T_1 with
  | Except.error e => Except.error (VErr.r1cs e)
  | Except.ok t7 =>
  match validate_and_append_point t7 Label.T_3 proof.T_3 with
  | Except.error e => Except.error (VErr.r1cs e)
  | Except.ok t8 =>
  match validate_and_append_point t8 Label.T_4 proof.T_4 with
  | Except.error e => Except.error (VErr.r1cs e)
  | Except.ok t9 =>
  match validate_and_append_point t9 Label.T_5 proof.T_5 with
  | Except.error e => Except.error (VErr.r1cs e)
  | Except.ok t10 =>
  match validate_and_append_point t10 Label.T_6 proof.T_6 with
  | Except.error e => Except.error (VErr.r1cs e)
  | Except.ok t11 =>
  let up := challenge_scalar oracle t11 Label.u
  let xp := challenge_scalar oracle up.2 Label.x
  let t12 := appendScalarT xp.2 Label.t_x proof.t_x
  let t13 := appendScalarT t12 Label.t_x_blinding proof.t_x_blinding
  let t14 := appendScalarT t13 Label.e_blinding proof.e_blinding
  let wp := challenge_scalar oracle t14 Label.w
  match flattened_constraints v2.st zp.1 with
  | none => Except.error VErr.panic
  | some fl =>
  match ippVS padded_n wp.2 with
  | none => Except.error (VErr.r1cs R1CSError.verificationError)
  | some ipr =>
      Except.ok ⟨v2, n1, n, yp.1, zp.1, up.1, xp.1, wp.1,
                 fl.wL, fl.wR, fl.wO, fl.wV, fl.wc,
                 ipr.1.1, ipr.1.2.1, ipr.1.2.2, ipr.2⟩

/-- The `padded_n = next_power_of_two(n)` of a run. -/
def paddedN (mid : VSMid F G) : Nat := next_power_of_two mid.n

/-- The `y_inv_vec = exp_iter(y⁻¹).take(padded_n)` (line 414). -/
def yInvVec (mid : VSMid F G) : List F := exp_iter_take mid.y⁻¹ (paddedN mid)

/-- The `yneg_wR`: `wR` pointwise times `y_inv_vec`, right-padded with `pad`
zeros (lines 415–420). -/
def ynegWR (mid : VSMid F G) : List F :=
  (mid.wR.zip (yInvVec mid)).map (fun p => p.1 * p.2)
    ++ List.replicate (paddedN mid - mid.n) (0 : F)

/-- The `delta = inner_product(&yneg_wR[0..n], &wL)` (line 422). -/
def deltaOf (mid : VSMid F G) : F :=
  inner_product ((ynegWR mid).take mid.n) mid.wL

/-- The `u_for_g` / `u_for_h`: `1` for the `n1` phase-1 gates, the challenge
`u` for the `n2 + pad` remaining positions (lines 424–427). -/
def uFor (mid : VSMid F G) : List F :=
  List.replicate mid.n1 (1 : F)
    ++ List.replicate ((mid.n - mid.n1) + (paddedN mid - mid.n)) mid.u

/-- The `g_scalars[i] = u_or_1ᵢ · (x·yneg_wRᵢ − a·sᵢ)` (lines 430–435). -/
def gScalars (proof : R1CSProof F G) (mid : VSMid F G) : List F :=
  (((ynegWR mid).zip (uFor mid)).zip (mid.s.take (paddedN mid))).map
    (fun p => p.1.2 * (mid.x * p.1.1 - proof.ipp_proof.a * p.2))

/-- The `h_scalars[i] = u_or_1ᵢ · (y_invᵢ · (x·wLᵢ + wOᵢ − b·s_revᵢ) − 1)`
with `wL`, `wO` right-padded (lines 437–446). -/
def hScalars (proof : R1CSProof F G) (mid : VSMid F G) : List F :=
  (((((yInvVec mid).zip (uFor mid)).zip (mid.s.reverse.take (paddedN mid))).zip
      (mid.wL ++ List.replicate (paddedN mid - mid.n) (0 : F))).zip
      (mid.wO ++ List.replicate (paddedN mid - mid.n) (0 : F))).map
    (fun p => p.1.1.1.2 *
      (p.1.1.1.1 * (mid.x * p.1.2 + p.2 - proof.ipp_proof.b * p.1.1.2) - 1))

/-- Line 448: `r` is drawn from a clone of the transcript, so only the
oracle output is kept and the state `mid.t` is not advanced. -/
def rDraw (oracle : ChalOracle F G) (mid : VSMid F G) : F :=
  (challenge_scalar oracle mid.t Label.r).1

/-- Lines 410–469 of `verification_scalars`: `y.inverse().unwrap()`
(panic when `y = 0`), the `g`/`h` scalars, the clone-draw of `r`, the
`T_scalars`, and the assembly of the output vector in source order.
The returned verifier carries the post-IPP transcript `mid.t`. -/
def vsFinalize (oracle : ChalOracle F G) (proof : R1CSProof F G) (mid : VSMid F G) :
    Except VErr (Verifier F G × List F) :=
  if mid.y = 0 then Except.error VErr.panic else
  let a := proof.ipp_proof.a
  let b := proof.ipp_proof.b
  let r := rDraw oracle mid
  let x := mid.x
  let xx := x * x
  let rxx := r * xx
  let xxx := x * xx
  let T_scalars : List F := [r * x, rxx * x, rxx * xx, rxx * xxx, rxx * xx * xx]
  Except.ok
    ({ mid.ver with st := { mid.ver.st with transcript := mid.t } },
     [mid.w * (proof.t_x - a * b) + r * (xx * (mid.wc + deltaOf mid) - proof.t_x),
      -proof.e_blinding - r * proof.t_x_blinding]
       ++ gScalars proof mid ++ hScalars proof mid
       ++ [x, xx, xxx, mid.u * x, mid.u * xx, mid.u * xxx]
       ++ mid.wV.map (fun wVi => wVi * rxx)
       ++ T_scalars ++ mid.u_sq ++ mid.u_inv_sq)

/-- The `Verifier::verification_scalars` (lines 344–470). -/
def verification_scalars (oracle : ChalOracle F G) (ippVS : IppVerifier F G)
    (v : Verifier F G) (proof : R1CSProof F G) (bp_gens : BulletproofGens) :
    Except VErr (Verifier F G × List F) :=
  match vsMid oracle ippVS v proof bp_gens with
  | Except.error e => Except.error e
  | Except.ok mid => vsFinalize oracle proof mid

/-- The `Except.isOk` for this development. -/
def isOkE {e a : Type} : Except e a → Bool
  | Except.ok _ => true
  | Except.error _ => false

end VS

section Batch

variable {F : Type} [Field F] [DecidableEq F] {G : Type} [Zero G] [DecidableEq G]

/-- The data of one batch instance after its `verification_scalars`
run: its `padded_n = next_power_of_two(num_vars)` and its scalar
vector. -/
structure BatchInstance (F : Type) where
  padded_n : Nat
  scalars : List F
  deriving DecidableEq, Repr

/-- The `max_n_padded` (lines 544–554): the maximum `padded_n` over the
instances, starting from 0. -/
def maxNPadded (insts : List (BatchInstance F)) : Nat :=
  insts.foldl (fun m i => max m i.padded_n) 0

/-- The random combining coefficient of the `k`-th batch instance
(line 580): the `k`-th output of the sampler, used directly — the
source performs no rejection of a zero draw. -/
def batchAlpha (rng : Nat → F) (k : Nat) : F := rng k

/-- The `all_scalars[i] += x` (the source's indexed `+=`; all uses are in
bounds, see `batchStep`). -/
def addAt (l : List F) (i : Nat) (x : F) : List F :=
  l.set i (l.getD i 0 + x)

/-- Add `vals[0], vals[1], …` into `l[off], l[off+1], …`, the source's
`for (i, s) in slice.iter().enumerate() { all_scalars[base + i] += *s }`
loops. -/
def accumSlots : List F → Nat → List F → List F
  | l, _, [] => l
  | l, off, v :: vs => accumSlots (addAt l off v) (off + 1) vs

/-- One iteration of the batch accumulation loop (lines 575–599, scalar
side): scale the instance's scalars by `alpha`, add slots 0/1 (`B`,
`B_blinding`), add the `g` block at offset 2 and the `h` block at
offset `2 + maxN` (start-aligned), then append the per-instance
tail. -/
def batchStep (alpha : F) (maxN : Nat) (acc : List F) (inst : BatchInstance F) :
    List F :=
  let scaled := inst.scalars.map (fun s => alpha * s)
  let acc0 := addAt acc 0 (scaled.getD 0 0)
  let acc1 := addAt acc0 1 (scaled.getD 1 0)
  let acc2 := accumSlots acc1 2 ((scaled.drop 2).take inst.padded_n)
  let acc3 := accumSlots acc2 (2 + maxN)
      ((scaled.drop (2 + inst.padded_n)).take inst.padded_n)
  acc3 ++ scaled.drop (2 + 2 * inst.padded_n)

/-- The batch loop over all instances, drawing `batchAlpha rng k` for
the `k`-th; `none` models the Rust panic when an instance's scalar
vector is shorter than its `2 + 2·padded_n` shared entries (the slice
expressions `scaled_scalars[2..2+padded_n]` etc. would be out of
range). -/
def batchAccum (rng : Nat → F) (maxN : Nat) :
    Nat → List F → List (BatchInstance F) → Option (List F)
  | _, acc, [] => some acc
  | k, acc, inst :: rest =>
      if 2 + 2 * inst.padded_n ≤ inst.scalars.length then
        batchAccum rng maxN (k + 1) (batchStep (batchAlpha rng k) maxN acc inst) rest
      else none

/-- The combined scalar vector built by `batch_verify` (lines 559–599):
`2 + 2·max_n_padded` shared slots initialised to zero, then every
instance folded in with its own random coefficient. -/
def batch_all_scalars (rng : Nat → F) (insts : List (BatchInstance F)) :
    Option (List F) :=
  batchAccum rng (maxNPadded insts) 0
    (List.replicate (2 + 2 * maxNPadded insts) (0 : F)) insts

end Batch

section ClaimSide

variable {F : Type} [Field F] [DecidableEq F] {G : Type} [Zero G] [DecidableEq G]

/-- The output order claimed by the spec (§4.6 steps 21–22), written
with explicit powers of `x`: the `B` and `B_blinding` scalars, the
`g` and `h` scalar blocks, the six scalars `x, x², x³, u·x, u·x², u·x³`,
one `wV[i]·r·x²` per committed point, the five
`T_scalars [r·x, r·x³, r·x⁴, r·x⁵, r·x⁶]`, then `u_sq`, then
`u_inv_sq`. -/
def claimOrder (oracle : ChalOracle F G) (proof : R1CSProof F G) (mid : VSMid F G) :
    List F :=
  let x := mid.x
  let r := rDraw oracle mid
  [mid.w * (proof.t_x - proof.ipp_proof.a * proof.ipp_proof.b)
     + r * (x ^ 2 * (mid.wc + deltaOf mid) - proof.t_x),
   -proof.e_blinding - r * proof.t_x_blinding]
    ++ gScalars proof mid ++ hScalars proof mid
    ++ [x, x ^ 2, x ^ 3, mid.u * x, mid.u * x ^ 2, mid.u * x ^ 3]
    ++ mid.wV.map (fun wVi => wVi * (r * x ^ 2))
    ++ [r * x, r * x ^ 3, r * x ^ 4, r * x ^ 5, r * x ^ 6]
    ++ mid.u_sq ++ mid.u_inv_sq

/-- Shape of a flattening accumulator: gate vectors of length `n`,
committed vector of length `m`. -/
def flShape (w : Flattened F) (n m : Nat) : Prop :=
  w.wL.length = n ∧ w.wR.length = n ∧ w.wO.length = n ∧ w.wV.length = m

/-- The total coefficient a single variable receives in one constraint
(duplicate occurrences sum additively). -/
def coeffSum (v : Variable) : List (Variable × F) → F
  | [] => 0
  | (u, c) :: tms => (if u = v then c else 0) + coeffSum v tms

/-- The `Σ_q e·z^q · (coefficient of v in constraint q)` over a constraint
list, i.e. the claim's `z^(q+1)`-weighted sum when started at
`e = z`. -/
def powerSum (z : F) (v : Variable) : F → List (LinearCombination F) → F
  | _, [] => 0
  | e, lc :: rest => e * coeffSum v lc.terms + powerSum z v (e * z) rest

/-- Whether one `(Variable, coeff)` term stays inside the weight
vectors of lengths `n` (gates) and `m` (committed inputs). -/
def termOK (n m : Nat) : Variable × F → Bool
  | (Variable.MultiplierLeft i, _) => i < n
  | (Variable.MultiplierRight i, _) => i < n
  | (Variable.MultiplierOutput i, _) => i < n
  | (Variable.Committed i, _) => i < m
  | (Variable.One, _) => true

/-- Every term of every stored constraint is in bounds for
`num_vars`/`|V|`. -/
def indicesOK (st : VState F G) : Prop :=
  ∀ lc ∈ st.constraints, ∀ tm ∈ lc.terms, termOK st.num_vars st.V.length tm = true

instance (st : VState F G) : Decidable (indicesOK st) := by
  unfold indicesOK; infer_instance

/-- The `k` successive `allocate` calls from a given state, collecting the
returned variables. -/
def allocSeq (st : VState F G) : Nat → Except R1CSError (VState F G × List Variable)
  | 0 => Except.ok (st, [])
  | k + 1 =>
      match allocate st with
      | Except.error e => Except.error e
      | Except.ok (st', v) =>
          match allocSeq st' k with
          | Except.error e => Except.error e
          | Except.ok (st'', vs) => Except.ok (st'', v :: vs)

/-- The claimed allocation pattern starting at gate `m`:
`Left m, Right m, Left (m+1), Right (m+1), …`. -/
def allocPattern (m : Nat) : Nat → List Variable
  | 0 => []
  | 1 => [Variable.MultiplierLeft m]
  | k + 2 => Variable.MultiplierLeft m :: Variable.MultiplierRight m
      :: allocPattern (m + 1) k

/-- The `pending_multiplier` of a successful `verification_scalars`
run (`none` when the run failed). -/
def resultPending (res : Except VErr (Verifier F G × List F)) : Option (Option Nat) :=
  match res with
  | Except.ok p => some p.1.st.pending_multiplier
  | Except.error _ => none

/-- Whether any of the eight identity-validated proof points
(`A_I1, A_O1, S1, T_1, T_3, T_4, T_5, T_6`) is the group identity. -/
def anyValidatedIdentity (proof : R1CSProof F G) : Bool :=
  proof.A_I1 = 0 ∨ proof.A_O1 = 0 ∨ proof.S1 = 0 ∨ proof.T_1 = 0 ∨
    proof.T_3 = 0 ∨ proof.T_4 = 0 ∨ proof.T_5 = 0 ∨ proof.T_6 = 0

/-- A callback operation that makes its callback return an error. -/
def RVOp.isFail : RVOp F → Bool
  | RVOp.fail _ => true
  | _ => false

/-- A single-wire `allocate` operation. -/
def RVOp.isAlloc : RVOp F → Bool
  | RVOp.allocate => true
  | _ => false

/-- The transcript after the `m` suffix and the three validated
phase-1 appends, assuming the validations pass. -/
def transcriptAfterS1 (v : Verifier F G) (proof : R1CSProof F G) : Transcript F G :=
  appendPointT
    (appendPointT
      (appendPointT (appendU64T v.st.transcript Label.m v.st.V.length)
        Label.A_I1 proof.A_I1)
      Label.A_O1 proof.A_O1)
    Label.S1 proof.S1

/-- The phase-2 transition as `verification_scalars` performs it:
`create_randomized_constraints` on the verifier whose transcript
already holds the `m` suffix and the `A_I1/A_O1/S1` appends. -/
def vsPhase2 (oracle : ChalOracle F G) (v : Verifier F G) (proof : R1CSProof F G) :
    Except R1CSError (Verifier F G) :=
  create_randomized_constraints oracle
    { v with st := { v.st with transcript := transcriptAfterS1 v proof } }

end ClaimSide

instance : Fact (Nat.Prime 5) := ⟨by norm_num⟩

/-- A concrete scalar field for closed-instance checks. -/
abbrev F5 := ZMod 5

/-- Concrete challenge oracle: every challenge is `1` (so `y ≠ 0`). -/
def oracle1 : ChalOracle F5 Int := fun _ _ => 1

/-- Concrete IPP sub-verifier: returns empty `u_sq`/`u_inv_sq`, an
all-ones `s` of length `padded_n`, and leaves the transcript as
given. -/
def ipp1 : IppVerifier F5 Int := fun pn t => some (([], [], List.replicate pn 1), t)

/-- A concrete proof whose points are all non-identity and whose
scalars are all `1`. -/
def proof1 : R1CSProof F5 Int :=
  ⟨1, 1, 1, 1, 1, 1, 1, 1, 1, 1, 1, 1, 1, 1, ⟨[], [], 1, 1⟩⟩

/-- A fresh verifier over the empty transcript. -/
def v1 : Verifier F5 Int := Verifier.new []

/-- Generators with capacity 4. -/
def bp1 : BulletproofGens := ⟨4⟩

/-- Generators with capacity 0 (always too small). -/
def bp0 : BulletproofGens := ⟨0⟩

/-- The `proof1` with an identity `A_I1`. -/
def proofIdA_I1 : R1CSProof F5 Int := { proof1 with A_I1 := 0 }

/-- The `proof1` with identity phase-2 points `A_I2`, `A_O2`, `S2`. -/
def proofIdPhase2 : R1CSProof F5 Int := { proof1 with A_I2 := 0, A_O2 := 0, S2 := 0 }

/-- The `proof1` with an identity `T_3`. -/
def proofIdT3 : R1CSProof F5 Int := { proof1 with T_3 := 0 }

/-- A fresh verifier carrying one deferred callback that performs a
single (odd) `allocate`. -/
def v9 : Verifier F5 Int := ⟨(Verifier.new ([] : Transcript F5 Int)).st, [[RVOp.allocate]]⟩

/-- An all-zero sampler stream. -/
def rng0 : Nat → F5 := fun _ => 0

/-- A batch instance with `padded_n = 1` and five all-one scalars. -/
def inst1 : BatchInstance F5 := ⟨1, [1, 1, 1, 1, 1]⟩

/-- A concrete verifier state with two gates, one commitment, and two
constraints exercising every variable kind. -/
def stC2 : VState F5 Int :=
  ⟨[], [⟨[(Variable.MultiplierLeft 0, 2), (Variable.Committed 0, 3),
          (Variable.One, 1), (Variable.MultiplierLeft 0, 1)]⟩,
        ⟨[(Variable.MultiplierRight 1, 4), (Variable.MultiplierOutput 0, 2)]⟩],
   2, [5], none⟩

/-- A verifier state with an out-of-range variable index
(`MultiplierLeft 3` with only 2 gates). -/
def stBad : VState F5 Int :=
  ⟨[], [⟨[(Variable.MultiplierLeft 3, 1)]⟩], 2, [5], none⟩

section Helpers

theorem np2go_ge {n : Nat} : ∀ fuel power, n ≤ power * 2 ^ fuel → n ≤ np2go n fuel power := by
  intro fuel
  induction fuel with
  | zero => intro p h; simpa [np2go] using h
  | succ f ih =>
      intro p h
      unfold np2go
      by_cases hp : p < n
      · simp only [hp, if_true]
        apply ih
        calc n ≤ p * 2 ^ (f + 1) := h
        _ = p * 2 * 2 ^ f := by ring
      · simpa [hp] using Nat.le_of_not_lt hp

theorem le_next_power_of_two (n : Nat) : n ≤ next_power_of_two n := by
  apply np2go_ge
  have := Nat.lt_two_pow n
  omega

theorem getD_set_self {α : Type} {l : List α} {i : Nat} {a d : α} (h : i < l.length) :
    (l.set i a).getD i d = a := by
  rw [List.getD_eq_getElem?_getD, List.getElem?_set_self h]
  rfl

theorem getD_set_ne {α : Type} {l : List α} {i j : Nat} {a d : α} (h : i ≠ j) :
    (l.set i a).getD j d = l.getD j d := by
  rw [List.getD_eq_getElem?_getD, List.getElem?_set_ne h, ← List.getD_eq_getElem?_getD]

theorem getD_replicate_lt {α : Type} {k i : Nat} {a d : α} (h : i < k) :
    (List.replicate k a).getD i d = a := by
  rw [List.getD_eq_getElem?_getD, List.getElem?_replicate]
  simp [h]

end Helpers

theorem getD_eq_get {α : Type} {l : List α} {i : Nat} {d : α} (h : i < l.length) :
    l.getD i d = l.get ⟨i, h⟩ := by
  rw [List.getD_eq_getElem?_getD, List.getElem?_eq_getElem h]; rfl

section FlattenLemmas

variable {F : Type} [Field F] [DecidableEq F] {G : Type} [Zero G] [DecidableEq G]

theorem applyTerm_some {n m : Nat} (w : Flattened F) (e : F)
    (tm : Variable × F) (hs : flShape w n m) (htm : termOK n m tm = true) :
    ∃ w', applyTerm w e tm = some w' ∧ flShape w' n m ∧
      (∀ i, w'.wL.getD i 0 = w.wL.getD i 0
        + (if tm.1 = Variable.MultiplierLeft i then e * tm.2 else 0)) ∧
      (∀ i, w'.wR.getD i 0 = w.wR.getD i 0
        + (if tm.1 = Variable.MultiplierRight i then e * tm.2 else 0)) ∧
      (∀ i, w'.wO.getD i 0 = w.wO.getD i 0
        + (if tm.1 = Variable.MultiplierOutput i then e * tm.2 else 0)) ∧
      (∀ i, w'.wV.getD i 0 = w.wV.getD i 0
        - (if tm.1 = Variable.Committed i then e * tm.2 else 0)) ∧
      w'.wc = w.wc - (if tm.1 = Variable.One then e * tm.2 else 0) := by
  obtain ⟨hL, hR, hO, hV⟩ := hs
  obtain ⟨v, c⟩ := tm
  cases v with
  | MultiplierLeft j =>
      have hj : j < w.wL.length := by
        rw [hL]; simpa [termOK] using htm
      refine ⟨{ w with wL := w.wL.set j (w.wL.get ⟨j, hj⟩ + e * c) },
        by simp [applyTerm, hj], ⟨by simp [hL], by simp [hR], by simp [hO], by simp [hV]⟩,
        ?_, by intro i; simp, by intro i; simp, by intro i; simp, by simp⟩
      intro i
      by_cases hji : j = i
      · subst hji
        simp [List.getElem?_set_self hj, List.getElem?_eq_getElem hj]
      · simp [getD_set_ne hji, hji]
  | MultiplierRight j =>
      have hj : j < w.wR.length := by
        rw [hR]; simpa [termOK] using htm
      refine ⟨{ w with wR := w.wR.set j (w.wR.get ⟨j, hj⟩ + e * c) },
        by simp [applyTerm, hj], ⟨by simp [hL], by simp [hR], by simp [hO], by simp [hV]⟩,
        by intro i; simp, ?_, by intro i; simp, by intro i; simp, by simp⟩
      intro i
      by_cases hji : j = i
      · subst hji
        simp [List.getElem?_set_self hj, List.getElem?_eq_getElem hj]
      · simp [getD_set_ne hji, hji]
  | MultiplierOutput j =>
      have hj : j < w.wO.length := by
        rw [hO]; simpa [termOK] using htm
      refine ⟨{ w with wO := w.wO.set j (w.wO.get ⟨j, hj⟩ + e * c) },
        by simp [applyTerm, hj], ⟨by simp [hL], by simp [hR], by simp [hO], by simp [hV]⟩,
        by intro i; simp, by intro i; simp, ?_, by intro i; simp, by simp⟩
      intro i
      by_cases hji : j = i
      · subst hji
        simp [List.getElem?_set_self hj, List.getElem?_eq_getElem hj]
      · simp [getD_set_ne hji, hji]
  | Committed j =>
      have hj : j < w.wV.length := by
        rw [hV]; simpa [termOK] using htm
      refine ⟨{ w with wV := w.wV.set j (w.wV.get ⟨j, hj⟩ - e * c) },
        by simp [applyTerm, hj], ⟨by simp [hL], by simp [hR], by simp [hO], by simp [hV]⟩,
        by intro i; simp, by intro i; simp, by intro i; simp, ?_, by simp⟩
      intro i
      by_cases hji : j = i
      · subst hji
        simp [List.getElem?_set_self hj, List.getElem?_eq_getElem hj]
      · simp [getD_set_ne hji, hji]
  | One =>
      exact ⟨{ w with wc := w.wc - e * c },
        by simp [applyTerm], ⟨hL, hR, hO, hV⟩,
        by intro i; simp, by intro i; simp, by intro i; simp, by intro i; simp, by simp⟩

end FlattenLemmas

section FlattenLemmas2

variable {F : Type} [Field F] [DecidableEq F] {G : Type} [Zero G] [DecidableEq G]

theorem applyTerm_none {n m : Nat} (w : Flattened F) (e : F)
    (tm : Variable × F) (hs : flShape w n m) (htm : termOK n m tm = false) :
    applyTerm w e tm = none := by
  obtain ⟨hL, hR, hO, hV⟩ := hs
  obtain ⟨v, c⟩ := tm
  cases v with
  | MultiplierLeft j =>
      have hj : ¬ j < w.wL.length := by
        rw [hL]; simpa [termOK] using htm
      simp [applyTerm, hj]
  | MultiplierRight j =>
      have hj : ¬ j < w.wR.length := by
        rw [hR]; simpa [termOK] using htm
      simp [applyTerm, hj]
  | MultiplierOutput j =>
      have hj : ¬ j < w.wO.length := by
        rw [hO]; simpa [termOK] using htm
      simp [applyTerm, hj]
  | Committed j =>
      have hj : ¬ j < w.wV.length := by
        rw [hV]; simpa [termOK] using htm
      simp [applyTerm, hj]
  | One => simp [termOK] at htm

theorem applyLC_some {n m : Nat} (e : F) :
    ∀ (tms : List (Variable × F)) (w : Flattened F), flShape w n m →
    (∀ tm ∈ tms, termOK n m tm = true) →
    ∃ w', applyLC e w tms = some w' ∧ flShape w' n m ∧
      (∀ i, w'.wL.getD i 0 = w.wL.getD i 0 + e * coeffSum (Variable.MultiplierLeft i) tms) ∧
      (∀ i, w'.wR.getD i 0 = w.wR.getD i 0 + e * coeffSum (Variable.MultiplierRight i) tms) ∧
      (∀ i, w'.wO.getD i 0 = w.wO.getD i 0 + e * coeffSum (Variable.MultiplierOutput i) tms) ∧
      (∀ i, w'.wV.getD i 0 = w.wV.getD i 0 - e * coeffSum (Variable.Committed i) tms) ∧
      w'.wc = w.wc - e * coeffSum Variable.One tms := by
  intro tms
  induction tms with
  | nil =>
      intro w hs _
      exact ⟨w, rfl, hs, by simp [coeffSum], by simp [coeffSum], by simp [coeffSum],
        by simp [coeffSum], by simp [coeffSum]⟩
  | cons tm tms ih =>
      intro w hs hok
      obtain ⟨w1, he1, hs1, hpL, hpR, hpO, hpV, hpc⟩ :=
        applyTerm_some w e tm hs (hok tm (by simp))
      obtain ⟨w', he', hs', hqL, hqR, hqO, hqV, hqc⟩ :=
        ih w1 hs1 (fun t ht => hok t (by simp [ht]))
      refine ⟨w', by simp [applyLC, he1, he'], hs', ?_, ?_, ?_, ?_, ?_⟩
      · intro i
        rw [hqL i, hpL i]
        obtain ⟨v, c⟩ := tm
        by_cases hv : v = Variable.MultiplierLeft i <;> simp [coeffSum, hv] <;> ring
      · intro i
        rw [hqR i, hpR i]
        obtain ⟨v, c⟩ := tm
        by_cases hv : v = Variable.MultiplierRight i <;> simp [coeffSum, hv] <;> ring
      · intro i
        rw [hqO i, hpO i]
        obtain ⟨v, c⟩ := tm
        by_cases hv : v = Variable.MultiplierOutput i <;> simp [coeffSum, hv] <;> ring
      · intro i
        rw [hqV i, hpV i]
        obtain ⟨v, c⟩ := tm
        by_cases hv : v = Variable.Committed i <;> simp [coeffSum, hv] <;> ring
      · rw [hqc, hpc]
        obtain ⟨v, c⟩ := tm
        by_cases hv : v = Variable.One <;> simp [coeffSum, hv] <;> ring

end FlattenLemmas2

section FlattenLemmas3

variable {F : Type} [Field F] [DecidableEq F] {G : Type} [Zero G] [DecidableEq G]

theorem applyLC_none {n m : Nat} (e : F) :
    ∀ (tms : List (Variable × F)) (w : Flattened F), flShape w n m →
    (∃ tm ∈ tms, termOK n m tm = false) →
    applyLC e w tms = none := by
  intro tms
  induction tms with
  | nil => intro w _ hbad; simp at hbad
  | cons tm tms ih =>
      intro w hs hbad
      obtain ⟨t, ht, hf⟩ := hbad
      rcases List.mem_cons.mp ht with h | h
      · subst h
        cases hcase : termOK n m t with
        | false => simp [applyLC, applyTerm_none w e t hs hcase]
        | true => rw [hcase] at hf; exact absurd hf (by simp)
      · cases hcase : termOK n m tm with
        | false => simp [applyLC, applyTerm_none w e tm hs hcase]
        | true =>
            obtain ⟨w1, he1, hs1, _⟩ := applyTerm_some w e tm hs hcase
            simp [applyLC, he1, ih w1 hs1 ⟨t, h, hf⟩]

theorem applyAll_some {n m : Nat} (z : F) :
    ∀ (cs : List (LinearCombination F)) (w : Flattened F) (e : F), flShape w n m →
    (∀ lc ∈ cs, ∀ tm ∈ lc.terms, termOK n m tm = true) →
    ∃ w', applyAll z w e cs = some w' ∧ flShape w' n m ∧
      (∀ i, w'.wL.getD i 0 = w.wL.getD i 0 + powerSum z (Variable.MultiplierLeft i) e cs) ∧
      (∀ i, w'.wR.getD i 0 = w.wR.getD i 0 + powerSum z (Variable.MultiplierRight i) e cs) ∧
      (∀ i, w'.wO.getD i 0 = w.wO.getD i 0 + powerSum z (Variable.MultiplierOutput i) e cs) ∧
      (∀ i, w'.wV.getD i 0 = w.wV.getD i 0 - powerSum z (Variable.Committed i) e cs) ∧
      w'.wc = w.wc - powerSum z Variable.One e cs := by
  intro cs
  induction cs with
  | nil =>
      intro w e hs _
      exact ⟨w, rfl, hs, by simp [powerSum], by simp [powerSum], by simp [powerSum],
        by simp [powerSum], by simp [powerSum]⟩
  | cons lc cs ih =>
      intro w e hs hok
      obtain ⟨w1, he1, hs1, hpL, hpR, hpO, hpV, hpc⟩ :=
        applyLC_some e lc.terms w hs (hok lc (by simp))
      obtain ⟨w', he', hs', hqL, hqR, hqO, hqV, hqc⟩ :=
        ih w1 (e * z) hs1 (fun c hc => hok c (by simp [hc]))
      refine ⟨w', by simp [applyAll, he1, he'], hs', ?_, ?_, ?_, ?_, ?_⟩
      · intro i; rw [hqL i, hpL i]; simp [powerSum]; ring
      · intro i; rw [hqR i, hpR i]; simp [powerSum]; ring
      · intro i; rw [hqO i, hpO i]; simp [powerSum]; ring
      · intro i; rw [hqV i, hpV i]; simp [powerSum]; ring
      · rw [hqc, hpc]; simp [powerSum]; ring

theorem applyAll_none {n m : Nat} (z : F) :
    ∀ (cs : List (LinearCombination F)) (w : Flattened F) (e : F), flShape w n m →
    (∃ lc ∈ cs, ∃ tm ∈ lc.terms, termOK n m tm = false) →
    applyAll z w e cs = none := by
  intro cs
  induction cs with
  | nil => intro w e _ hbad; simp at hbad
  | cons lc cs ih =>
      intro w e hs hbad
      obtain ⟨c, hc, t, ht, hf⟩ := hbad
      rcases List.mem_cons.mp hc with h | h
      · subst h
        simp [applyAll, applyLC_none e c.terms w hs ⟨t, ht, hf⟩]
      · by_cases hall : ∀ tm ∈ lc.terms, termOK n m tm = true
        · obtain ⟨w1, he1, hs1, _⟩ := applyLC_some e lc.terms w hs hall
          simp [applyAll, he1, ih w1 (e * z) hs1 ⟨c, h, t, ht, hf⟩]
        · push_neg at hall
          obtain ⟨t', ht', hf'⟩ := hall
          simp [applyAll,
            applyLC_none e lc.terms w hs ⟨t', ht', by simpa using hf'⟩]

end FlattenLemmas3

section MoreHelpers

variable {F : Type} [Field F] [DecidableEq F] {G : Type} [Zero G] [DecidableEq G]

theorem applyTerm_shape {n m : Nat} {w w' : Flattened F} {e : F} {tm : Variable × F}
    (hs : flShape w n m) (h : applyTerm w e tm = some w') : flShape w' n m := by
  obtain ⟨hL, hR, hO, hV⟩ := hs
  obtain ⟨v, c⟩ := tm
  cases v <;> simp only [applyTerm] at h
  case MultiplierLeft j =>
      split at h
      · cases h; exact ⟨by simp [hL], by simp [hR], by simp [hO], by simp [hV]⟩
      · cases h
  case MultiplierRight j =>
      split at h
      · cases h; exact ⟨by simp [hL], by simp [hR], by simp [hO], by simp [hV]⟩
      · cases h
  case MultiplierOutput j =>
      split at h
      · cases h; exact ⟨by simp [hL], by simp [hR], by simp [hO], by simp [hV]⟩
      · cases h
  case Committed j =>
      split at h
      · cases h; exact ⟨by simp [hL], by simp [hR], by simp [hO], by simp [hV]⟩
      · cases h
  case One =>
      cases h; exact ⟨hL, hR, hO, hV⟩

theorem applyLC_shape {n m : Nat} {e : F} :
    ∀ {tms : List (Variable × F)} {w w' : Flattened F}, flShape w n m →
    applyLC e w tms = some w' → flShape w' n m := by
  intro tms
  induction tms with
  | nil => intro w w' hs h; cases h; exact hs
  | cons tm tms ih =>
      intro w w' hs h
      simp only [applyLC] at h
      cases htm : applyTerm w e tm with
      | none => rw [htm] at h; cases h
      | some w1 =>
          rw [htm] at h
          exact ih (applyTerm_shape hs htm) h

theorem applyAll_shape {n m : Nat} {z : F} :
    ∀ {cs : List (LinearCombination F)} {w w' : Flattened F} {e : F}, flShape w n m →
    applyAll z w e cs = some w' → flShape w' n m := by
  intro cs
  induction cs with
  | nil => intro w w' e hs h; cases h; exact hs
  | cons lc cs ih =>
      intro w w' e hs h
      simp only [applyAll] at h
      cases hlc : applyLC e w lc.terms with
      | none => rw [hlc] at h; cases h
      | some w1 =>
          rw [hlc] at h
          exact ih (applyLC_shape hs hlc) h

/-- Shape of the zero-initialised accumulator. -/
theorem flShape_init (n m : Nat) :
    flShape (⟨List.replicate n (0 : F), List.replicate n 0, List.replicate n 0,
      List.replicate m 0, 0⟩ : Flattened F) n m := by
  refine ⟨?_, ?_, ?_, ?_⟩ <;> simp

theorem flattened_constraints_shape {st : VState F G} {z : F} {w : Flattened F}
    (h : flattened_constraints st z = some w) :
    flShape w st.num_vars st.V.length :=
  applyAll_shape (flShape_init _ _) h

/-- Entry `i` of a zero-initialised vector is `0` (any `i`). -/
theorem getD_replicate_zero (k i : Nat) : (List.replicate k (0 : F)).getD i 0 = 0 := by
  rw [List.getD_eq_getElem?_getD, List.getElem?_replicate]
  split <;> rfl

theorem flattened_constraints_some {st : VState F G} {z : F} (h : indicesOK st) :
    ∃ w, flattened_constraints st z = some w ∧
      w.wL.length = st.num_vars ∧ w.wR.length = st.num_vars ∧
      w.wO.length = st.num_vars ∧ w.wV.length = st.V.length ∧
      (∀ i, w.wL.getD i 0 = powerSum z (Variable.MultiplierLeft i) z st.constraints) ∧
      (∀ i, w.wR.getD i 0 = powerSum z (Variable.MultiplierRight i) z st.constraints) ∧
      (∀ i, w.wO.getD i 0 = powerSum z (Variable.MultiplierOutput i) z st.constraints) ∧
      (∀ i, w.wV.getD i 0 = -powerSum z (Variable.Committed i) z st.constraints) ∧
      w.wc = -powerSum z Variable.One z st.constraints := by
  obtain ⟨w, hw, hs, hpL, hpR, hpO, hpV, hpc⟩ :=
    applyAll_some z st.constraints _ z (flShape_init st.num_vars st.V.length)
      (fun lc hlc tm htm => h lc hlc tm htm)
  obtain ⟨hL, hR, hO, hV⟩ := hs
  refine ⟨w, hw, hL, hR, hO, hV, ?_, ?_, ?_, ?_, ?_⟩
  · intro i; rw [hpL i]; simp [getD_replicate_zero]
  · intro i; rw [hpR i]; simp [getD_replicate_zero]
  · intro i; rw [hpO i]; simp [getD_replicate_zero]
  · intro i; rw [hpV i]; simp [getD_replicate_zero]
  · rw [hpc]; simp

theorem flattened_constraints_none {st : VState F G} {z : F} (h : ¬ indicesOK st) :
    flattened_constraints st z = none := by
  unfold indicesOK at h
  push_neg at h
  obtain ⟨lc, hlc, tm, htm, hf⟩ := h
  exact applyAll_none z st.constraints _ z (flShape_init st.num_vars st.V.length)
    ⟨lc, hlc, tm, htm, by simpa using hf⟩

theorem expTake_length (x : F) : ∀ (k : Nat) (cur : F), (expTake x k cur).length = k := by
  intro k
  induction k with
  | zero => intro cur; rfl
  | succ k ih => intro cur; simp [expTake, ih]

theorem exp_iter_take_length (x : F) (k : Nat) : (exp_iter_take x k).length = k :=
  expTake_length x k 1

end MoreHelpers

section CallbackLemmas

variable {F : Type} [Field F] [DecidableEq F] {G : Type} [Zero G] [DecidableEq G]

theorem runRVOp_numvars {oracle : ChalOracle F G} {st st' : VState F G} {op : RVOp F}
    (h : runRVOp oracle st op = Except.ok st') : st.num_vars ≤ st'.num_vars := by
  cases op <;> simp only [runRVOp] at h
  case multiply l r => cases h; simp [multiply, constrain]
  case allocate =>
      simp only [allocate] at h
      cases hp : st.pending_multiplier <;> rw [hp] at h <;> cases h <;> simp
  case allocateMultiplier => simp only [allocate_multiplier] at h; cases h; simp
  case constrain lc => cases h; simp [constrain]
  case challenge l => cases h; simp
  case fail e => cases h

theorem runRVOp_pending {oracle : ChalOracle F G} {st st' : VState F G} {op : RVOp F}
    (hna : op.isAlloc = false) (h : runRVOp oracle st op = Except.ok st') :
    st'.pending_multiplier = st.pending_multiplier := by
  cases op <;> simp only [runRVOp] at h
  case multiply l r => cases h; simp [multiply, constrain]
  case allocate => simp [RVOp.isAlloc] at hna
  case allocateMultiplier => simp only [allocate_multiplier] at h; cases h; simp
  case constrain lc => cases h; simp [constrain]
  case challenge l => cases h; rfl
  case fail e => cases h

theorem runRVOp_ok_of_nofail (oracle : ChalOracle F G) (st : VState F G) {op : RVOp F}
    (hnf : op.isFail = false) : ∃ st', runRVOp oracle st op = Except.ok st' := by
  cases op <;> simp [runRVOp, allocate, allocate_multiplier]
  case allocate => cases hp : st.pending_multiplier <;> simp
  case fail e => simp [RVOp.isFail] at hnf

theorem runRVOps_numvars {oracle : ChalOracle F G} :
    ∀ {ops : List (RVOp F)} {st st' : VState F G},
    runRVOps oracle st ops = Except.ok st' → st.num_vars ≤ st'.num_vars := by
  intro ops
  induction ops with
  | nil => intro st st' h; cases h; exact Nat.le_refl _
  | cons op ops ih =>
      intro st st' h
      simp only [runRVOps] at h
      cases hop : runRVOp oracle st op with
      | error e => rw [hop] at h; cases h
      | ok st1 =>
          rw [hop] at h
          exact Nat.le_trans (runRVOp_numvars hop) (ih h)

theorem runRVOps_pending {oracle : ChalOracle F G} :
    ∀ {ops : List (RVOp F)} {st st' : VState F G},
    (∀ op ∈ ops, RVOp.isAlloc op = false) →
    runRVOps oracle st ops = Except.ok st' →
    st'.pending_multiplier = st.pending_multiplier := by
  intro ops
  induction ops with
  | nil => intro st st' _ h; cases h; rfl
  | cons op ops ih =>
      intro st st' hna h
      simp only [runRVOps] at h
      cases hop : runRVOp oracle st op with
      | error e => rw [hop] at h; cases h
      | ok st1 =>
          rw [hop] at h
          rw [ih (fun o ho => hna o (by simp [ho])) h,
            runRVOp_pending (hna op (by simp)) hop]

theorem runRVOps_ok_of_nofail (oracle : ChalOracle F G) :
    ∀ {ops : List (RVOp F)} (st : VState F G),
    (∀ op ∈ ops, RVOp.isFail op = false) →
    ∃ st', runRVOps oracle st ops = Except.ok st' := by
  intro ops
  induction ops with
  | nil => intro st _; exact ⟨st, rfl⟩
  | cons op ops ih =>
      intro st hnf
      obtain ⟨st1, h1⟩ := runRVOp_ok_of_nofail oracle st (hnf op (by simp))
      obtain ⟨st', h'⟩ := ih st1 (fun o ho => hnf o (by simp [ho]))
      exact ⟨st', by simp [runRVOps, h1, h']⟩

theorem runCallbacks_numvars {oracle : ChalOracle F G} :
    ∀ {cbs : List (List (RVOp F))} {st st' : VState F G},
    runCallbacks oracle st cbs = Except.ok st' → st.num_vars ≤ st'.num_vars := by
  intro cbs
  induction cbs with
  | nil => intro st st' h; cases h; exact Nat.le_refl _
  | cons cb cbs ih =>
      intro st st' h
      simp only [runCallbacks] at h
      cases hcb : runRVOps oracle st cb with
      | error e => rw [hcb] at h; cases h
      | ok st1 =>
          rw [hcb] at h
          exact Nat.le_trans (runRVOps_numvars hcb) (ih h)

theorem runCallbacks_pending {oracle : ChalOracle F G} :
    ∀ {cbs : List (List (RVOp F))} {st st' : VState F G},
    (∀ cb ∈ cbs, ∀ op ∈ cb, RVOp.isAlloc op = false) →
    runCallbacks oracle st cbs = Except.ok st' →
    st'.pending_multiplier = st.pending_multiplier := by
  intro cbs
  induction cbs with
  | nil => intro st st' _ h; cases h; rfl
  | cons cb cbs ih =>
      intro st st' hna h
      simp only [runCallbacks] at h
      cases hcb : runRVOps oracle st cb with
      | error e => rw [hcb] at h; cases h
      | ok st1 =>
          rw [hcb] at h
          rw [ih (fun c hc => hna c (by simp [hc])) h,
            runRVOps_pending (hna cb (by simp)) hcb]

theorem runCallbacks_ok_of_nofail (oracle : ChalOracle F G) :
    ∀ {cbs : List (List (RVOp F))} (st : VState F G),
    (∀ cb ∈ cbs, ∀ op ∈ cb, RVOp.isFail op = false) →
    ∃ st', runCallbacks oracle st cbs = Except.ok st' := by
  intro cbs
  induction cbs with
  | nil => intro st _; exact ⟨st, rfl⟩
  | cons cb cbs ih =>
      intro st hnf
      obtain ⟨st1, h1⟩ := runRVOps_ok_of_nofail oracle st (hnf cb (by simp))
      obtain ⟨st', h'⟩ := ih st1 (fun c hc o ho => hnf c (by simp [hc]) o ho)
      exact ⟨st', by simp [runCallbacks, h1, h']⟩

theorem create_randomized_deferred {oracle : ChalOracle F G} {v v' : Verifier F G}
    (h : create_randomized_constraints oracle v = Except.ok v') :
    v'.deferred_constraints = [] := by
  simp only [create_randomized_constraints] at h
  split at h
  · cases h; rfl
  · split at h
    · cases h
    · cases h; rfl

theorem create_randomized_numvars {oracle : ChalOracle F G} {v v' : Verifier F G}
    (h : create_randomized_constraints oracle v = Except.ok v') :
    v.st.num_vars ≤ v'.st.num_vars := by
  simp only [create_randomized_constraints] at h
  split at h
  · cases h; exact Nat.le_refl _
  · split at h
    · cases h
    · cases h
      next hrc =>
        have := runCallbacks_numvars hrc
        simpa using this

theorem create_randomized_pending {oracle : ChalOracle F G} {v v' : Verifier F G}
    (hna : ∀ cb ∈ v.deferred_constraints, ∀ op ∈ cb, RVOp.isAlloc op = false)
    (h : create_randomized_constraints oracle v = Except.ok v') :
    v'.st.pending_multiplier = none := by
  obtain ⟨vst, dcs⟩ := v
  cases dcs with
  | nil => simp only [create_randomized_constraints] at h; cases h; rfl
  | cons cb rest =>
      simp only [create_randomized_constraints] at h
      split at h
      · cases h
      · cases h
        next st2 hrc =>
          rw [runCallbacks_pending hna hrc]

theorem create_randomized_ok_of_nofail (oracle : ChalOracle F G) (v : Verifier F G)
    (hnf : ∀ cb ∈ v.deferred_constraints, ∀ op ∈ cb, RVOp.isFail op = false) :
    ∃ v', create_randomized_constraints oracle v = Except.ok v' := by
  simp only [create_randomized_constraints]
  split
  · exact ⟨_, rfl⟩
  · next cb rest hd =>
      obtain ⟨st', h'⟩ := runCallbacks_ok_of_nofail oracle
        { v.st with pending_multiplier := none,
                    transcript := domSepT v.st.transcript Label.r1cs_2phase }
        (hd ▸ hnf)
      exact ⟨⟨st', []⟩, by rw [h']⟩

theorem validate_ok_ne {t t' : Transcript F G} {l : Label} {p : G}
    (h : validate_and_append_point t l p = Except.ok t') : p ≠ 0 := by
  intro hp
  rw [validate_and_append_point, if_pos hp] at h
  cases h

theorem validate_of_ne {t : Transcript F G} {l : Label} {p : G} (hp : p ≠ 0) :
    validate_and_append_point t l p = Except.ok (t ++ [TEvent.point l p]) := by
  rw [validate_and_append_point, if_neg hp]

theorem validate_of_eq {t : Transcript F G} {l : Label} {p : G} (hp : p = 0) :
    validate_and_append_point t l p = Except.error R1CSError.verificationError := by
  rw [validate_and_append_point, if_pos hp]

end CallbackLemmas

section VSMidLemmas

variable {F : Type} [Field F] [DecidableEq F] {G : Type} [Zero G] [DecidableEq G]

theorem validate_ok_eq {t t' : Transcript F G} {l : Label} {p : G}
    (h : validate_and_append_point t l p = Except.ok t') :
    p ≠ 0 ∧ t' = t ++ [TEvent.point l p] := by
  by_cases hp : p = 0
  · rw [validate_of_eq hp] at h; cases h
  · rw [validate_of_ne hp] at h; cases h; exact ⟨hp, rfl⟩

theorem vsMid_ok_facts {oracle : ChalOracle F G} {ippVS : IppVerifier F G}
    {v : Verifier F G} {proof : R1CSProof F G} {bp : BulletproofGens} {mid : VSMid F G}
    (h : vsMid oracle ippVS v proof bp = Except.ok mid) :
    proof.A_I1 ≠ 0 ∧ proof.A_O1 ≠ 0 ∧ proof.S1 ≠ 0 ∧
    proof.T_1 ≠ 0 ∧ proof.T_3 ≠ 0 ∧ proof.T_4 ≠ 0 ∧ proof.T_5 ≠ 0 ∧ proof.T_6 ≠ 0 ∧
    vsPhase2 oracle v proof = Except.ok mid.ver ∧
    mid.n1 = v.st.num_vars ∧
    mid.n = mid.ver.st.num_vars ∧
    mid.n1 ≤ mid.n ∧
    ¬ bp.gens_capacity < paddedN mid ∧
    flattened_constraints mid.ver.st mid.z
      = some ⟨mid.wL, mid.wR, mid.wO, mid.wV, mid.wc⟩ ∧
    (∃ t', ippVS (paddedN mid) t' = some ((mid.u_sq, mid.u_inv_sq, mid.s), mid.t)) := by
  simp only [vsMid] at h
  split at h
  · cases h
  rename_i t1 h1
  split at h
  · cases h
  rename_i t2 h2
  split at h
  · cases h
  rename_i t3 h3
  split at h
  · cases h
  rename_i v2 hcr
  split at h
  · cases h
  rename_i hcap
  split at h
  · cases h
  rename_i t7 h7
  split at h
  · cases h
  rename_i t8 h8
  split at h
  · cases h
  rename_i t9 h9
  split at h
  · cases h
  rename_i t10 h10
  split at h
  · cases h
  rename_i t11 h11
  split at h
  · cases h
  rename_i fl hflat
  split at h
  · cases h
  rename_i ipr hipp
  cases h
  obtain ⟨hA1, e1⟩ := validate_ok_eq h1
  obtain ⟨hA2, e2⟩ := validate_ok_eq h2
  obtain ⟨hA3, e3⟩ := validate_ok_eq h3
  obtain ⟨hT1, _⟩ := validate_ok_eq h7
  obtain ⟨hT3, _⟩ := validate_ok_eq h8
  obtain ⟨hT4, _⟩ := validate_ok_eq h9
  obtain ⟨hT5, _⟩ := validate_ok_eq h10
  obtain ⟨hT6, _⟩ := validate_ok_eq h11
  subst e1; subst e2; subst e3
  refine ⟨hA1, hA2, hA3, hT1, hT3, hT4, hT5, hT6, ?_, rfl, rfl, ?_, ?_, ?_, ?_⟩
  · simp only [vsPhase2, transcriptAfterS1, appendPointT, appendU64T]
    simpa [appendU64T] using hcr
  · simpa using create_randomized_numvars hcr
  · simpa [paddedN] using hcap
  · exact hflat
  · exact ⟨_, hipp⟩
end VSMidLemmas

section FinalizeLemmas

variable {F : Type} [Field F] [DecidableEq F] {G : Type} [Zero G] [DecidableEq G]

theorem ynegWR_length {mid : VSMid F G} (hwR : mid.wR.length = mid.n) :
    (ynegWR mid).length = paddedN mid := by
  have hle := le_next_power_of_two mid.n
  simp only [ynegWR, List.length_append, List.length_map, List.length_zip, yInvVec,
    exp_iter_take_length, List.length_replicate, hwR]
  unfold paddedN at *
  omega

theorem uFor_length {mid : VSMid F G} (hn1 : mid.n1 ≤ mid.n) :
    (uFor mid).length = paddedN mid := by
  have hle := le_next_power_of_two mid.n
  simp only [uFor, List.length_append, List.length_replicate]
  unfold paddedN at *
  omega

theorem gScalars_length {proof : R1CSProof F G} {mid : VSMid F G}
    (hwR : mid.wR.length = mid.n) (hn1 : mid.n1 ≤ mid.n)
    (hs : mid.s.length = paddedN mid) :
    (gScalars proof mid).length = paddedN mid := by
  simp only [gScalars, List.length_map, List.length_zip, List.length_take,
    ynegWR_length hwR, uFor_length hn1, hs]
  omega

theorem hScalars_length {proof : R1CSProof F G} {mid : VSMid F G}
    (hwL : mid.wL.length = mid.n) (hwO : mid.wO.length = mid.n) (hn1 : mid.n1 ≤ mid.n)
    (hs : mid.s.length = paddedN mid) :
    (hScalars proof mid).length = paddedN mid := by
  have hle := le_next_power_of_two mid.n
  simp only [hScalars, List.length_map, List.length_zip, List.length_take,
    List.length_append, List.length_reverse, List.length_replicate, yInvVec,
    exp_iter_take_length, uFor_length hn1, hs, hwL, hwO]
  unfold paddedN at *
  omega

theorem vsFinalize_ok_eq {oracle : ChalOracle F G} {proof : R1CSProof F G}
    {mid : VSMid F G} {p : Verifier F G × List F}
    (h : vsFinalize oracle proof mid = Except.ok p) :
    mid.y ≠ 0 ∧
    p.1 = { mid.ver with st := { mid.ver.st with transcript := mid.t } } ∧
    p.2 = claimOrder oracle proof mid := by
  simp only [vsFinalize] at h
  split at h
  · cases h
  rename_i hy
  cases h
  refine ⟨hy, rfl, ?_⟩
  simp only [claimOrder]
  congr 1
  congr 1
  congr 1
  congr 1
  congr 1
  congr 1
  congr 1
  · ring_nf
  · ring_nf
  · have hf : (fun wVi => wVi * (rDraw oracle mid * (mid.x * mid.x)))
        = (fun wVi => wVi * (rDraw oracle mid * mid.x ^ 2)) := by
      funext t; ring
    rw [hf]
  · ring_nf

end FinalizeLemmas

section ClaimC1

variable {F : Type} [Field F] [DecidableEq F] {G : Type} [Zero G] [DecidableEq G]

/-- C1: for every successful run of `verification_scalars` (with an IPP
sub-verifier meeting its contract `|s| = padded_n`), the returned scalar
vector is exactly, in order: `w·(t_x − a·b) + r·(x²·(wc + delta) − t_x)`
for `B`; `−e_blinding − r·t_x_blinding` for `B_blinding`; the `padded_n`
entries of `g_scalars`; the `padded_n` entries of `h_scalars`; the six
scalars `x, x², x³, u·x, u·x², u·x³`; one scalar `wV[i]·r·x²` per
committed point (in order); the five
`T_scalars = [r·x, r·x³, r·x⁴, r·x⁵, r·x⁶]`; then all of `u_sq`; then
all of `u_inv_sq` — as spelled out by `claimOrder`. -/
theorem C1_scalar_order (oracle : ChalOracle F G) (ippVS : IppVerifier F G)
    (v : Verifier F G) (proof : R1CSProof F G) (bp : BulletproofGens)
    (hipp : ∀ pn t res, ippVS pn t = some res → res.1.2.2.length = pn)
    (hok : isOkE (verification_scalars oracle ippVS v proof bp) = true) :
    ∃ mid p, vsMid oracle ippVS v proof bp = Except.ok mid ∧
      verification_scalars oracle ippVS v proof bp = Except.ok p ∧
      p.2 = claimOrder oracle proof mid ∧
      (gScalars proof mid).length = paddedN mid ∧
      (hScalars proof mid).length = paddedN mid ∧
      mid.wV.length = mid.ver.st.V.length := by
  cases hE : verification_scalars oracle ippVS v proof bp with
  | error e => rw [hE] at hok; simp [isOkE] at hok
  | ok p =>
      have hE' := hE
      simp only [verification_scalars] at hE'
      split at hE'
      · cases hE'
      rename_i mid hmid
      obtain ⟨_, _, _, _, _, _, _, _, hph2, hn1v, hnver, hn1n, hcap, hflat, t', hippEq⟩ :=
        vsMid_ok_facts hmid
      obtain ⟨hy, hp1, hp2⟩ := vsFinalize_ok_eq hE'
      obtain ⟨hL, hR, hO, hV⟩ := flattened_constraints_shape hflat
      have hsLen : mid.s.length = paddedN mid := hipp _ _ _ hippEq
      exact ⟨mid, p, hmid, rfl, hp2,
        gScalars_length (hR.trans hnver.symm) hn1n hsLen,
        hScalars_length (hL.trans hnver.symm) (hO.trans hnver.symm) hn1n hsLen,
        hV⟩

end ClaimC1

/-- Witness for C1 at a concrete instance. -/
theorem C1_scalar_order_witness :
    ∃ mid p, vsMid oracle1 ipp1 v1 proof1 bp1 = Except.ok mid ∧
      verification_scalars oracle1 ipp1 v1 proof1 bp1 = Except.ok p ∧
      p.2 = claimOrder oracle1 proof1 mid ∧
      (gScalars proof1 mid).length = paddedN mid ∧
      (hScalars proof1 mid).length = paddedN mid ∧
      mid.wV.length = mid.ver.st.V.length :=
  C1_scalar_order oracle1 ipp1 v1 proof1 bp1
    (fun pn t res h => by
      simp only [ipp1, Option.some.injEq] at h
      rw [← h]
      simp)
    (by decide)

section ClaimC6

variable {F : Type} [Field F] [DecidableEq F] {G : Type} [Zero G] [DecidableEq G]

/-- C6: the challenge `r` is drawn from a clone of the transcript, so
after a successful `verification_scalars` run the returned verifier's
transcript equals the transcript `mid.t` as it stood right after the
IPP call, before `r` was drawn — drawing `r` did not advance it — and
any later challenge drawn from the returned transcript is the same as
one drawn from the pre-`r` transcript. -/
theorem C6_r_clone (oracle : ChalOracle F G) (ippVS : IppVerifier F G)
    (v : Verifier F G) (proof : R1CSProof F G) (bp : BulletproofGens)
    (hok : isOkE (verification_scalars oracle ippVS v proof bp) = true) :
    ∃ mid p, vsMid oracle ippVS v proof bp = Except.ok mid ∧
      verification_scalars oracle ippVS v proof bp = Except.ok p ∧
      p.1.st.transcript = mid.t ∧
      (∀ l, challenge_scalar oracle p.1.st.transcript l
        = challenge_scalar oracle mid.t l) := by
  cases hE : verification_scalars oracle ippVS v proof bp with
  | error e => rw [hE] at hok; simp [isOkE] at hok
  | ok p =>
      have hE' := hE
      simp only [verification_scalars] at hE'
      split at hE'
      · cases hE'
      rename_i mid hmid
      obtain ⟨hy, hp1, hp2⟩ := vsFinalize_ok_eq hE'
      have ht : p.1.st.transcript = mid.t := by rw [hp1]
      exact ⟨mid, p, hmid, rfl, ht, fun l => by rw [ht]⟩

end ClaimC6

/-- Witness for C6 at a concrete instance. -/
theorem C6_r_clone_witness :
    ∃ mid p, vsMid oracle1 ipp1 v1 proof1 bp1 = Except.ok mid ∧
      verification_scalars oracle1 ipp1 v1 proof1 bp1 = Except.ok p ∧
      p.1.st.transcript = mid.t ∧
      (∀ l, challenge_scalar oracle1 p.1.st.transcript l
        = challenge_scalar oracle1 mid.t l) :=
  C6_r_clone oracle1 ipp1 v1 proof1 bp1 (by decide)

section ClaimC9

variable {F : Type} [Field F] [DecidableEq F] {G : Type} [Zero G] [DecidableEq G]

/-- C9 (amended): after a successful `verification_scalars` run the
returned verifier always has an empty `deferred_constraints` list, and
its `pending_multiplier` is `None` provided no deferred callback
performs a single-wire `allocate` (in particular when there are no
deferred callbacks); a callback performing an odd number of `allocate`
calls leaves `pending_multiplier` set. -/
theorem C9_post_state (oracle : ChalOracle F G) (ippVS : IppVerifier F G)
    (v : Verifier F G) (proof : R1CSProof F G) (bp : BulletproofGens)
    (hok : isOkE (verification_scalars oracle ippVS v proof bp) = true) :
    ∃ p, verification_scalars oracle ippVS v proof bp = Except.ok p ∧
      p.1.deferred_constraints = [] ∧
      ((∀ cb ∈ v.deferred_constraints, ∀ op ∈ cb, RVOp.isAlloc op = false) →
        p.1.st.pending_multiplier = none) := by
  cases hE : verification_scalars oracle ippVS v proof bp with
  | error e => rw [hE] at hok; simp [isOkE] at hok
  | ok p =>
      have hE' := hE
      simp only [verification_scalars] at hE'
      split at hE'
      · cases hE'
      rename_i mid hmid
      obtain ⟨_, _, _, _, _, _, _, _, hph2, _⟩ := vsMid_ok_facts hmid
      have hph2' : create_randomized_constraints oracle
          { v with st := { v.st with transcript := transcriptAfterS1 v proof } }
          = Except.ok mid.ver := hph2
      obtain ⟨hy, hp1, hp2⟩ := vsFinalize_ok_eq hE'
      refine ⟨p, rfl, ?_, ?_⟩
      · rw [hp1]
        simpa using create_randomized_deferred hph2'
      · intro hna
        have hna' : ∀ cb ∈ ({ v with st := { v.st with
              transcript := transcriptAfterS1 v proof } } : Verifier F G).deferred_constraints,
            ∀ op ∈ cb, RVOp.isAlloc op = false := hna
        rw [hp1]
        simpa using create_randomized_pending hna' hph2'

end ClaimC9

/-- Witness for C9 (amended) at a concrete instance without callbacks. -/
theorem C9_post_state_witness :
    ∃ p, verification_scalars oracle1 ipp1 v1 proof1 bp1 = Except.ok p ∧
      p.1.deferred_constraints = [] ∧
      ((∀ cb ∈ v1.deferred_constraints, ∀ op ∈ cb, RVOp.isAlloc op = false) →
        p.1.st.pending_multiplier = none) :=
  C9_post_state oracle1 ipp1 v1 proof1 bp1 (by decide)

/-- C9 counterexample: with one deferred callback performing a single
`allocate`, `verification_scalars` succeeds yet leaves the returned
verifier with `pending_multiplier = some 0`, contradicting the claim
that it is always `None`. -/
theorem C9_counterexample :
    resultPending (verification_scalars oracle1 ipp1 v9 proof1 bp1)
      = some (some 0) := by decide

section ClaimC3

variable {F : Type} [Field F] [DecidableEq F] {G : Type} [Zero G] [DecidableEq G]

/-- C3 (amended): provided `A_I1`, `A_O1`, `S1` pass the identity
validation and the deferred callbacks succeed, a `BulletproofGens`
capacity smaller than `padded_n` makes `verification_scalars` return
`Err(InvalidGeneratorsLength)`; the capacity check precedes the
`A_I2/A_O2/S2` appends, every `T_*` validation and every challenge
draw, but the validations of `A_I1`, `A_O1`, `S1` happen before it. -/
theorem C3_capacity (oracle : ChalOracle F G) (ippVS : IppVerifier F G)
    (v : Verifier F G) (proof : R1CSProof F G) (bp : BulletproofGens)
    (hA : proof.A_I1 ≠ 0) (hB : proof.A_O1 ≠ 0) (hS : proof.S1 ≠ 0)
    (v2 : Verifier F G) (h2 : vsPhase2 oracle v proof = Except.ok v2)
    (hcap : bp.gens_capacity < next_power_of_two v2.st.num_vars) :
    verification_scalars oracle ippVS v proof bp
      = Except.error (VErr.r1cs R1CSError.invalidGeneratorsLength) := by
  simp only [vsPhase2, transcriptAfterS1, appendPointT, appendU64T] at h2
  simp only [verification_scalars, vsMid, validate_of_ne hA, validate_of_ne hB,
    validate_of_ne hS, appendU64T, h2, hcap, if_pos]

end ClaimC3

/-- Witness for C3 (amended) at a concrete instance. -/
theorem C3_capacity_witness :
    verification_scalars oracle1 ipp1 v1 proof1 bp0
      = Except.error (VErr.r1cs R1CSError.invalidGeneratorsLength) :=
  C3_capacity oracle1 ipp1 v1 proof1 bp0 (by decide) (by decide) (by decide)
    ⟨⟨[TEvent.domSep Label.r1cs_v1, TEvent.u64 Label.m 0, TEvent.point Label.A_I1 1,
       TEvent.point Label.A_O1 1, TEvent.point Label.S1 1,
       TEvent.domSep Label.r1cs_1phase], [], 0, [], none⟩, []⟩
    (by decide) (by decide)

/-- C3 counterexample: with the generator capacity (0) strictly below
`padded_n` (= 1) but an identity `A_I1`, `verification_scalars` returns
`VerificationError` — the point validation of `A_I1` runs *before* the
capacity check, so neither "returns `Err(InvalidGeneratorsLength)`" nor
"before any point validation" holds as claimed. -/
theorem C3_counterexample :
    bp0.gens_capacity < next_power_of_two v1.st.num_vars ∧
    verification_scalars oracle1 ipp1 v1 proofIdA_I1 bp0
      = Except.error (VErr.r1cs R1CSError.verificationError) := by decide

/-- C7: `verification_scalars` returns an error whenever any of the
proof points `A_I1, A_O1, S1, T_1, T_3, T_4, T_5, T_6` is the group
identity; an identity among `A_I1/A_O1/S1` yields exactly
`VerificationError`, as does an identity `T_*` once the earlier steps
pass; and `A_I2/A_O2/S2` are appended without validation — a run in
which all three are the identity can still succeed. -/
theorem C7_point_validation :
    (∀ (F : Type) [Field F] [DecidableEq F] (G : Type) [Zero G] [DecidableEq G]
        (oracle : ChalOracle F G) (ippVS : IppVerifier F G) (v : Verifier F G)
        (proof : R1CSProof F G) (bp : BulletproofGens),
        anyValidatedIdentity proof = true →
        isOkE (verification_scalars oracle ippVS v proof bp) = false) ∧
    (∀ (F : Type) [Field F] [DecidableEq F] (G : Type) [Zero G] [DecidableEq G]
        (oracle : ChalOracle F G) (ippVS : IppVerifier F G) (v : Verifier F G)
        (proof : R1CSProof F G) (bp : BulletproofGens),
        (proof.A_I1 = 0 ∨ proof.A_O1 = 0 ∨ proof.S1 = 0) →
        verification_scalars oracle ippVS v proof bp
          = Except.error (VErr.r1cs R1CSError.verificationError)) ∧
    (∀ (F : Type) [Field F] [DecidableEq F] (G : Type) [Zero G] [DecidableEq G]
        (oracle : ChalOracle F G) (ippVS : IppVerifier F G) (v : Verifier F G)
        (proof : R1CSProof F G) (bp : BulletproofGens) (v2 : Verifier F G),
        proof.A_I1 ≠ 0 → proof.A_O1 ≠ 0 → proof.S1 ≠ 0 →
        vsPhase2 oracle v proof = Except.ok v2 →
        ¬ bp.gens_capacity < next_power_of_two v2.st.num_vars →
        (proof.T_1 = 0 ∨ proof.T_3 = 0 ∨ proof.T_4 = 0 ∨ proof.T_5 = 0 ∨
          proof.T_6 = 0) →
        verification_scalars oracle ippVS v proof bp
          = Except.error (VErr.r1cs R1CSError.verificationError)) ∧
    (proofIdPhase2.A_I2 = 0 ∧ proofIdPhase2.A_O2 = 0 ∧ proofIdPhase2.S2 = 0 ∧
      isOkE (verification_scalars oracle1 ipp1 v1 proofIdPhase2 bp1) = true) := by
  refine ⟨?_, ?_, ?_, by decide⟩
  · intro F _ _ G _ _ oracle ippVS v proof bp hid
    cases hE : verification_scalars oracle ippVS v proof bp with
    | error e => rfl
    | ok p =>
        exfalso
        have hE' := hE
        simp only [verification_scalars] at hE'
        split at hE'
        · cases hE'
        rename_i mid hmid
        obtain ⟨hA1, hA2, hA3, hT1, hT3, hT4, hT5, hT6, _⟩ := vsMid_ok_facts hmid
        simp only [anyValidatedIdentity, decide_eq_true_eq] at hid
        rcases hid with h | h | h | h | h | h | h | h <;> simp_all
  · intro F _ _ G _ _ oracle ippVS v proof bp hid
    by_cases hA : proof.A_I1 = 0
    · simp only [verification_scalars, vsMid, validate_of_eq hA]
    by_cases hB : proof.A_O1 = 0
    · simp only [verification_scalars, vsMid, validate_of_ne hA, validate_of_eq hB]
    have hS : proof.S1 = 0 := by tauto
    simp only [verification_scalars, vsMid, validate_of_ne hA, validate_of_ne hB,
      validate_of_eq hS]
  · intro F _ _ G _ _ oracle ippVS v proof bp v2 hA hB hS h2 hcap hT
    simp only [vsPhase2, transcriptAfterS1, appendPointT, appendU64T] at h2
    by_cases hT1 : proof.T_1 = 0
    · simp only [verification_scalars, vsMid, validate_of_ne hA, validate_of_ne hB,
        validate_of_ne hS, appendU64T, h2, hcap, ite_false, validate_of_eq hT1]
    by_cases hT3 : proof.T_3 = 0
    · simp only [verification_scalars, vsMid, validate_of_ne hA, validate_of_ne hB,
        validate_of_ne hS, appendU64T, h2, hcap, ite_false, validate_of_ne hT1,
        validate_of_eq hT3]
    by_cases hT4 : proof.T_4 = 0
    · simp only [verification_scalars, vsMid, validate_of_ne hA, validate_of_ne hB,
        validate_of_ne hS, appendU64T, h2, hcap, ite_false, validate_of_ne hT1,
        validate_of_ne hT3, validate_of_eq hT4]
    by_cases hT5 : proof.T_5 = 0
    · simp only [verification_scalars, vsMid, validate_of_ne hA, validate_of_ne hB,
        validate_of_ne hS, appendU64T, h2, hcap, ite_false, validate_of_ne hT1,
        validate_of_ne hT3, validate_of_ne hT4, validate_of_eq hT5]
    have hT6 : proof.T_6 = 0 := by tauto
    simp only [verification_scalars, vsMid, validate_of_ne hA, validate_of_ne hB,
      validate_of_ne hS, appendU64T, h2, hcap, ite_false, validate_of_ne hT1,
      validate_of_ne hT3, validate_of_ne hT4, validate_of_ne hT5, validate_of_eq hT6]

/-- Witness for C7: an identity `T_3` makes the run fail (first
conjunct) with exactly `VerificationError` (third conjunct). -/
theorem C7_point_validation_witness :
    isOkE (verification_scalars oracle1 ipp1 v1 proofIdT3 bp1) = false ∧
    verification_scalars oracle1 ipp1 v1 proofIdT3 bp1
      = Except.error (VErr.r1cs R1CSError.verificationError) :=
  ⟨C7_point_validation.1 F5 Int oracle1 ipp1 v1 proofIdT3 bp1 (by decide),
   C7_point_validation.2.2.1 F5 Int oracle1 ipp1 v1 proofIdT3 bp1
     ⟨⟨[TEvent.domSep Label.r1cs_v1, TEvent.u64 Label.m 0, TEvent.point Label.A_I1 1,
        TEvent.point Label.A_O1 1, TEvent.point Label.S1 1,
        TEvent.domSep Label.r1cs_1phase], [], 0, [], none⟩, []⟩
     (by decide) (by decide) (by decide) (by decide) (by decide) (by decide)⟩

section ClaimC8

variable {F : Type} [Field F] [DecidableEq F] {G : Type} [Zero G] [DecidableEq G]

theorem allocate_of_none {st : VState F G} (h : st.pending_multiplier = none) :
    allocate st = Except.ok
      ({ st with num_vars := st.num_vars + 1, pending_multiplier := some st.num_vars },
       Variable.MultiplierLeft st.num_vars) := by
  simp [allocate, h]

theorem allocate_of_some {st : VState F G} {i : Nat} (h : st.pending_multiplier = some i) :
    allocate st = Except.ok ({ st with pending_multiplier := none },
      Variable.MultiplierRight i) := by
  simp [allocate, h]

theorem allocSeq_spec :
    ∀ (k : Nat) (st : VState F G), st.pending_multiplier = none →
    ∃ st', allocSeq st k = Except.ok (st', allocPattern st.num_vars k) ∧
      st'.num_vars = st.num_vars + (k + 1) / 2 ∧
      st'.pending_multiplier
        = (if k % 2 = 1 then some (st.num_vars + k / 2) else none) := by
  intro k
  induction k using Nat.strong_induction_on with
  | _ k ih =>
      match k with
      | 0 =>
          intro st h
          exact ⟨st, by simp [allocSeq, allocPattern], by simp, by simpa using h⟩
      | 1 =>
          intro st h
          refine ⟨{ st with num_vars := st.num_vars + 1, pending_multiplier := some st.num_vars }, ?_, ?_, ?_⟩
          · simp [allocSeq, allocate_of_none h, allocPattern]
          · simp
          · simp
      | (k + 2) =>
          intro st h
          obtain ⟨st', h1, h2, h3⟩ := ih k (by omega)
            { st with num_vars := st.num_vars + 1, pending_multiplier := none } rfl
          refine ⟨st', ?_, ?_, ?_⟩
          · have hsome : ({ st with num_vars := st.num_vars + 1, pending_multiplier := some st.num_vars } : VState F G).pending_multiplier = some st.num_vars := rfl
            simp only [allocSeq, allocate_of_none h, allocate_of_some hsome, h1]
            simp [allocPattern]
          · simp only at h2
            rw [h2]
            omega
          · simp only at h3
            rw [h3]
            have hm : (k + 2) % 2 = k % 2 := by omega
            by_cases hk : k % 2 = 1
            · simp only [hm, hk, if_pos]
              congr 1
              omega
            · simp [hm, hk]

/-- C8: starting from a fresh verifier, `k` successive `allocate`
calls all return `Ok` (on any state, `allocate` never fails), leave
`num_vars = ⌈k/2⌉ = (k+1)/2`, and return the variables
`MultiplierLeft 0, MultiplierRight 0, MultiplierLeft 1, …` —
alternating Left/Right with matching gate indices, as `allocPattern`
spells out. -/
theorem C8_paired_allocation (t : Transcript F G) (k : Nat) :
    (∃ st', allocSeq (Verifier.new t).st k
        = Except.ok (st', allocPattern 0 k) ∧
      st'.num_vars = (k + 1) / 2) ∧
    (∀ s : VState F G, ∃ r, allocate s = Except.ok r) := by
  constructor
  · obtain ⟨st', h1, h2, h3⟩ := allocSeq_spec k (Verifier.new t).st rfl
    exact ⟨st', by simpa [Verifier.new] using h1, by simpa [Verifier.new] using h2⟩
  · intro s
    cases hp : s.pending_multiplier with
    | none => exact ⟨_, allocate_of_none hp⟩
    | some i => exact ⟨_, allocate_of_some hp⟩

end ClaimC8

section ClaimC2

variable {F : Type} [Field F] [DecidableEq F] {G : Type} [Zero G] [DecidableEq G]

/-- C2: for every challenge `z` and every verifier state whose stored
constraint indices are in range, `flattened_constraints` returns
`(wL, wR, wO, wV, wc)` with `wL, wR, wO` of length `num_vars` and `wV`
of length `|V|`, where entry `i` of each vector is the sum over the
constraints (0-indexed `q`, insertion order, weight `z^(q+1)`) of the
accumulated coefficients of the matching variable — added for
`MultiplierLeft/Right/Output(i)`, subtracted for `Committed(i)` into
`wV[i]` and for `One` into `wc`; duplicate variables accumulate
additively (`powerSum`/`coeffSum` spell out these sums). -/
theorem C2_flattening (st : VState F G) (z : F) (h : indicesOK st) :
    ∃ w, flattened_constraints st z = some w ∧
      w.wL.length = st.num_vars ∧ w.wR.length = st.num_vars ∧
      w.wO.length = st.num_vars ∧ w.wV.length = st.V.length ∧
      (∀ i, w.wL.getD i 0 = powerSum z (Variable.MultiplierLeft i) z st.constraints) ∧
      (∀ i, w.wR.getD i 0 = powerSum z (Variable.MultiplierRight i) z st.constraints) ∧
      (∀ i, w.wO.getD i 0 = powerSum z (Variable.MultiplierOutput i) z st.constraints) ∧
      (∀ i, w.wV.getD i 0 = -powerSum z (Variable.Committed i) z st.constraints) ∧
      w.wc = -powerSum z Variable.One z st.constraints :=
  flattened_constraints_some h

end ClaimC2

/-- Witness for C2 at a concrete state and challenge `z = 3`. -/
theorem C2_flattening_witness :
    ∃ w, flattened_constraints stC2 (3 : F5) = some w ∧
      w.wL.length = stC2.num_vars ∧ w.wR.length = stC2.num_vars ∧
      w.wO.length = stC2.num_vars ∧ w.wV.length = stC2.V.length ∧
      (∀ i, w.wL.getD i 0 = powerSum 3 (Variable.MultiplierLeft i) 3 stC2.constraints) ∧
      (∀ i, w.wR.getD i 0 = powerSum 3 (Variable.MultiplierRight i) 3 stC2.constraints) ∧
      (∀ i, w.wO.getD i 0 = powerSum 3 (Variable.MultiplierOutput i) 3 stC2.constraints) ∧
      (∀ i, w.wV.getD i 0 = -powerSum 3 (Variable.Committed i) 3 stC2.constraints) ∧
      w.wc = -powerSum 3 Variable.One 3 stC2.constraints :=
  C2_flattening stC2 3 (by decide)

section ClaimC10

variable {F : Type} [Field F] [DecidableEq F] {G : Type} [Zero G] [DecidableEq G]

/-- C10: `constrain` stores the linear combination verbatim with no
validation (it always succeeds and only appends), and
`flattened_constraints` indexes the weight vectors directly with the
stored indices: it is total (returns `some`) exactly when every
`MultiplierLeft/Right/Output(i)` in a stored constraint has
`i < num_vars` and every `Committed(i)` has `i < |V|`; otherwise the
indexing is out of bounds and the code panics (modelled as `none`)
rather than returning an error. -/
theorem C10_flattening_totality :
    (∀ (F : Type) [Field F] [DecidableEq F] (G : Type) [Zero G] [DecidableEq G]
        (st : VState F G) (lc : LinearCombination F),
        constrain st lc = { st with constraints := st.constraints ++ [lc] }) ∧
    (∀ (F : Type) [Field F] [DecidableEq F] (G : Type) [Zero G] [DecidableEq G]
        (st : VState F G) (z : F),
        (flattened_constraints st z).isSome ↔ indicesOK st) := by
  refine ⟨fun F _ _ G _ _ st lc => rfl, ?_⟩
  intro F _ _ G _ _ st z
  constructor
  · intro hsome
    by_contra hbad
    rw [flattened_constraints_none hbad] at hsome
    cases hsome
  · intro hidx
    obtain ⟨w, hw, _⟩ := flattened_constraints_some (z := z) hidx
    rw [hw]
    rfl

end ClaimC10

/-- Witness for C10: the totality equivalence evaluated at an in-range
state and at an out-of-range state. -/
theorem C10_flattening_totality_witness :
    ((flattened_constraints stC2 (3 : F5)).isSome ↔ indicesOK stC2) ∧
    ((flattened_constraints stBad (3 : F5)).isSome ↔ indicesOK stBad) ∧
    flattened_constraints stBad (3 : F5) = none ∧ ¬ indicesOK stBad :=
  ⟨C10_flattening_totality.2 F5 Int stC2 3,
   C10_flattening_totality.2 F5 Int stBad 3,
   by decide, by decide⟩

section BatchLemmas

variable {F : Type} [Field F] [DecidableEq F]

theorem getD_map_mul (alpha : F) (l : List F) (j : Nat) :
    (l.map (fun s => alpha * s)).getD j 0 = alpha * l.getD j 0 := by
  induction l generalizing j with
  | nil => simp
  | cons a l ih =>
      cases j with
      | zero => simp
      | succ j => simpa using ih j

theorem getD_take_lt {l : List F} {n i : Nat} (h : i < n) :
    (l.take n).getD i 0 = l.getD i 0 := by
  rw [List.getD_eq_getElem?_getD, List.getElem?_take, if_pos h,
    ← List.getD_eq_getElem?_getD]

theorem getD_drop (l : List F) (n i : Nat) :
    (l.drop n).getD i 0 = l.getD (n + i) 0 := by
  rw [List.getD_eq_getElem?_getD, List.getElem?_drop, ← List.getD_eq_getElem?_getD]

theorem addAt_length (l : List F) (i : Nat) (x : F) :
    (addAt l i x).length = l.length := by
  simp [addAt]

theorem addAt_getD_self {l : List F} {i : Nat} (x : F) (h : i < l.length) :
    (addAt l i x).getD i 0 = l.getD i 0 + x :=
  getD_set_self h

theorem addAt_getD_ne {l : List F} {i j : Nat} (x : F) (h : i ≠ j) :
    (addAt l i x).getD j 0 = l.getD j 0 :=
  getD_set_ne h

theorem addAt_drop {l : List F} {i k : Nat} (x : F) (h : i < k) :
    (addAt l i x).drop k = l.drop k := by
  simp [addAt, List.drop_set, h]

theorem accumSlots_length :
    ∀ (vs l : List F) (off : Nat), (accumSlots l off vs).length = l.length := by
  intro vs
  induction vs with
  | nil => intro l off; rfl
  | cons v vs ih =>
      intro l off
      simp [accumSlots, ih, addAt_length]

theorem accumSlots_drop :
    ∀ (vs l : List F) (off k : Nat), off + vs.length ≤ k →
    (accumSlots l off vs).drop k = l.drop k := by
  intro vs
  induction vs with
  | nil => intro l off k _; rfl
  | cons v vs ih =>
      intro l off k h
      simp only [accumSlots]
      rw [ih _ (off + 1) k (by simp at h; omega), addAt_drop v (by simp at h; omega)]

theorem accumSlots_getD :
    ∀ (vs l : List F) (off : Nat), off + vs.length ≤ l.length →
    ∀ j, (accumSlots l off vs).getD j 0 =
      l.getD j 0 + (if off ≤ j ∧ j < off + vs.length then vs.getD (j - off) 0 else 0) := by
  intro vs
  induction vs with
  | nil =>
      intro l off _ j
      simp [accumSlots]
  | cons v vs ih =>
      intro l off hb j
      simp only [List.length_cons] at hb ⊢
      have hoff : off < l.length := by omega
      simp only [accumSlots]
      rw [ih (addAt l off v) (off + 1) (by rw [addAt_length]; omega) j]
      by_cases hj : j = off
      · subst hj
        rw [addAt_getD_self v hoff]
        have h1 : ¬ (j + 1 ≤ j ∧ j < j + 1 + vs.length) := by omega
        have h2 : j ≤ j ∧ j < j + (vs.length + 1) := by omega
        rw [if_neg h1, if_pos h2]
        simp
      · rw [addAt_getD_ne v (fun he => hj he.symm)]
        by_cases hin : off + 1 ≤ j ∧ j < off + 1 + vs.length
        · have h2 : off ≤ j ∧ j < off + (vs.length + 1) := by omega
          rw [if_pos hin, if_pos h2]
          have hsub : j - off = (j - (off + 1)) + 1 := by omega
          rw [hsub, List.getD_cons_succ]
        · have h2 : ¬ (off ≤ j ∧ j < off + (vs.length + 1)) := by omega
          rw [if_neg hin, if_neg h2]

theorem batchStep_spec (alpha : F) (maxN : Nat) (acc : List F) (inst : BatchInstance F)
    (hlen : 2 + 2 * inst.padded_n ≤ inst.scalars.length)
    (hp : inst.padded_n ≤ maxN)
    (hacc : 2 + 2 * maxN ≤ acc.length) :
    (batchStep alpha maxN acc inst).length
        = acc.length + (inst.scalars.length - (2 + 2 * inst.padded_n)) ∧
    (batchStep alpha maxN acc inst).drop acc.length
        = (inst.scalars.map (fun s => alpha * s)).drop (2 + 2 * inst.padded_n) ∧
    (batchStep alpha maxN acc inst).getD 0 0
        = acc.getD 0 0 + alpha * inst.scalars.getD 0 0 ∧
    (batchStep alpha maxN acc inst).getD 1 0
        = acc.getD 1 0 + alpha * inst.scalars.getD 1 0 ∧
    (∀ i, i < inst.padded_n →
      (batchStep alpha maxN acc inst).getD (2 + i) 0
        = acc.getD (2 + i) 0 + alpha * inst.scalars.getD (2 + i) 0) ∧
    (∀ i, i < inst.padded_n →
      (batchStep alpha maxN acc inst).getD (2 + maxN + i) 0
        = acc.getD (2 + maxN + i) 0
          + alpha * inst.scalars.getD (2 + inst.padded_n + i) 0) := by
  simp only [batchStep]
  set s := inst.scalars.map (fun t => alpha * t) with hs
  set g := (s.drop 2).take inst.padded_n with hgdef
  set hl := (s.drop (2 + inst.padded_n)).take inst.padded_n with hhdef
  set A01 := addAt (addAt acc 0 (s.getD 0 0)) 1 (s.getD 1 0) with hA01
  set A2 := accumSlots A01 2 g with hA2
  set A3 := accumSlots A2 (2 + maxN) hl with hA3
  have hslen : s.length = inst.scalars.length := by
    rw [hs, List.length_map]
  have hgl : g.length = inst.padded_n := by
    rw [hgdef]
    simp only [List.length_take, List.length_drop, hslen]
    omega
  have hhl : hl.length = inst.padded_n := by
    rw [hhdef]
    simp only [List.length_take, List.length_drop, hslen]
    omega
  have hB01 : A01.length = acc.length := by
    rw [hA01, addAt_length, addAt_length]
  have hB2 : A2.length = acc.length := by
    rw [hA2, accumSlots_length, hB01]
  have hB3 : A3.length = acc.length := by
    rw [hA3, accumSlots_length, hB2]
  have sget : ∀ j, s.getD j 0 = alpha * inst.scalars.getD j 0 := by
    intro j; rw [hs, getD_map_mul]
  refine ⟨?_, ?_, ?_, ?_, ?_, ?_⟩
  · simp only [List.length_append, hB3, List.length_drop, hslen]
  · rw [← hB3, List.drop_left]
  · rw [List.getD_append _ _ _ _ (by omega),
      hA3, accumSlots_getD hl A2 (2 + maxN) (by omega) 0,
      if_neg (by omega), add_zero,
      hA2, accumSlots_getD g A01 2 (by omega) 0,
      if_neg (by omega), add_zero,
      hA01, addAt_getD_ne _ (by omega), addAt_getD_self _ (by omega), sget]
  · rw [List.getD_append _ _ _ _ (by omega),
      hA3, accumSlots_getD hl A2 (2 + maxN) (by omega) 1,
      if_neg (by omega), add_zero,
      hA2, accumSlots_getD g A01 2 (by omega) 1,
      if_neg (by omega), add_zero,
      hA01, addAt_getD_self _ (by rw [addAt_length]; omega),
      addAt_getD_ne _ (by omega), sget]
  · intro i hi
    rw [List.getD_append _ _ _ _ (by omega),
      hA3, accumSlots_getD hl A2 (2 + maxN) (by omega) (2 + i),
      if_neg (by omega), add_zero,
      hA2, accumSlots_getD g A01 2 (by omega) (2 + i),
      if_pos (by omega),
      hA01, addAt_getD_ne _ (by omega), addAt_getD_ne _ (by omega)]
    have hsub : 2 + i - 2 = i := by omega
    rw [hsub, hgdef, getD_take_lt hi, getD_drop, sget]
  · intro i hi
    rw [List.getD_append _ _ _ _ (by omega),
      hA3, accumSlots_getD hl A2 (2 + maxN) (by omega) (2 + maxN + i),
      if_pos (by omega),
      hA2, accumSlots_getD g A01 2 (by omega) (2 + maxN + i),
      if_neg (by omega), add_zero,
      hA01, addAt_getD_ne _ (by omega), addAt_getD_ne _ (by omega)]
    have hsub : 2 + maxN + i - (2 + maxN) = i := by omega
    rw [hsub, hhdef, getD_take_lt hi, getD_drop, sget]

end BatchLemmas

/-- C5: `batch_verify`'s combined scalar accumulator starts as
`2 + 2·max_n_padded` zeroed shared slots (`B`, `B_blinding`,
`G[0..max_n_padded]`, `H[0..max_n_padded]`) with the instances folded in
one by one; folding an instance with its own `padded_n ≤ max_n_padded`
adds `α·scalars[0]`/`α·scalars[1]` into slots 0/1, `α·g_scalars[i]`
(= `α·scalars[2+i]`) into shared slot `2 + i` and `α·h_scalars[i]`
(= `α·scalars[2+padded_n+i]`) into shared slot `2 + max_n_padded + i`
for every `i < padded_n` — start-aligned in each block, not
right-aligned — and appends the remaining per-instance scalars after
the existing slots. -/
theorem C5_batch_slots :
    (∀ (F : Type) [Field F] [DecidableEq F] (rng : Nat → F)
        (insts : List (BatchInstance F)),
        batch_all_scalars rng insts
          = batchAccum rng (maxNPadded insts) 0
              (List.replicate (2 + 2 * maxNPadded insts) (0 : F)) insts) ∧
    (∀ (F : Type) [Field F] [DecidableEq F] (alpha : F) (maxN : Nat) (acc : List F)
        (inst : BatchInstance F),
        2 + 2 * inst.padded_n ≤ inst.scalars.length →
        inst.padded_n ≤ maxN →
        2 + 2 * maxN ≤ acc.length →
        (batchStep alpha maxN acc inst).length
            = acc.length + (inst.scalars.length - (2 + 2 * inst.padded_n)) ∧
        (batchStep alpha maxN acc inst).drop acc.length
            = (inst.scalars.map (fun s => alpha * s)).drop (2 + 2 * inst.padded_n) ∧
        (batchStep alpha maxN acc inst).getD 0 0
            = acc.getD 0 0 + alpha * inst.scalars.getD 0 0 ∧
        (batchStep alpha maxN acc inst).getD 1 0
            = acc.getD 1 0 + alpha * inst.scalars.getD 1 0 ∧
        (∀ i, i < inst.padded_n →
          (batchStep alpha maxN acc inst).getD (2 + i) 0
            = acc.getD (2 + i) 0 + alpha * inst.scalars.getD (2 + i) 0) ∧
        (∀ i, i < inst.padded_n →
          (batchStep alpha maxN acc inst).getD (2 + maxN + i) 0
            = acc.getD (2 + maxN + i) 0
              + alpha * inst.scalars.getD (2 + inst.padded_n + i) 0)) :=
  ⟨fun F _ _ rng insts => rfl,
   fun F _ _ alpha maxN acc inst hlen hp hacc =>
     batchStep_spec alpha maxN acc inst hlen hp hacc⟩

/-- Witness for C5 at a concrete instance folded into a fresh
accumulator. -/
theorem C5_batch_slots_witness :
    (batch_all_scalars rng0 [inst1]
      = batchAccum rng0 (maxNPadded [inst1]) 0
          (List.replicate (2 + 2 * maxNPadded [inst1]) (0 : F5)) [inst1]) ∧
    ((batchStep (2 : F5) 2 (List.replicate 6 0) inst1).length
        = (List.replicate 6 (0 : F5)).length + (inst1.scalars.length - (2 + 2 * inst1.padded_n)) ∧
      (batchStep (2 : F5) 2 (List.replicate 6 0) inst1).drop (List.replicate 6 (0 : F5)).length
        = (inst1.scalars.map (fun s => (2 : F5) * s)).drop (2 + 2 * inst1.padded_n) ∧
      (batchStep (2 : F5) 2 (List.replicate 6 0) inst1).getD 0 0
        = (List.replicate 6 (0 : F5)).getD 0 0 + 2 * inst1.scalars.getD 0 0 ∧
      (batchStep (2 : F5) 2 (List.replicate 6 0) inst1).getD 1 0
        = (List.replicate 6 (0 : F5)).getD 1 0 + 2 * inst1.scalars.getD 1 0 ∧
      (∀ i, i < inst1.padded_n →
        (batchStep (2 : F5) 2 (List.replicate 6 0) inst1).getD (2 + i) 0
          = (List.replicate 6 (0 : F5)).getD (2 + i) 0 + 2 * inst1.scalars.getD (2 + i) 0) ∧
      (∀ i, i < inst1.padded_n →
        (batchStep (2 : F5) 2 (List.replicate 6 0) inst1).getD (2 + 2 + i) 0
          = (List.replicate 6 (0 : F5)).getD (2 + 2 + i) 0
            + 2 * inst1.scalars.getD (2 + inst1.padded_n + i) 0)) :=
  ⟨C5_batch_slots.1 F5 rng0 [inst1],
   C5_batch_slots.2 F5 2 2 (List.replicate 6 0) inst1 (by decide) (by decide) (by decide)⟩

/-- C4 (amended): in `batch_verify` the per-instance combining
coefficient is the sampler's draw used directly — `batchAlpha rng k`
is exactly `rng k`, with no rejection loop — the `k`-th instance is
folded in with precisely that coefficient, and when the sampler draws
zero the instance's scaled scalar vector is identically zero. -/
theorem C4_alpha_no_rejection :
    (∀ (F : Type) [Field F] [DecidableEq F] (rng : Nat → F) (k : Nat),
        batchAlpha rng k = rng k) ∧
    (∀ (F : Type) [Field F] [DecidableEq F] (rng : Nat → F) (maxN k : Nat)
        (acc : List F) (inst : BatchInstance F) (rest : List (BatchInstance F)),
        2 + 2 * inst.padded_n ≤ inst.scalars.length →
        batchAccum rng maxN k acc (inst :: rest)
          = batchAccum rng maxN (k + 1)
              (batchStep (batchAlpha rng k) maxN acc inst) rest) ∧
    (∀ (F : Type) [Field F] [DecidableEq F] (rng : Nat → F) (k : Nat)
        (inst : BatchInstance F),
        rng k = 0 →
        inst.scalars.map (fun s => batchAlpha rng k * s)
          = List.replicate inst.scalars.length (0 : F)) := by
  refine ⟨fun F _ _ rng k => rfl, ?_, ?_⟩
  · intro F _ _ rng maxN k acc inst rest hlen
    simp [batchAccum, hlen]
  · intro F _ _ rng k inst h0
    simp only [batchAlpha, h0, zero_mul]
    induction inst.scalars with
    | nil => rfl
    | cons a l ih =>
        simp only [List.map_cons, ih, List.length_cons]
        rfl

/-- Witness for C4 (amended) at concrete inputs. -/
theorem C4_alpha_no_rejection_witness :
    batchAlpha rng0 0 = rng0 0 ∧
    batchAccum rng0 1 0 (List.replicate 4 (0 : F5)) [inst1]
      = batchAccum rng0 1 1 (batchStep (batchAlpha rng0 0) 1 (List.replicate 4 0) inst1) [] ∧
    inst1.scalars.map (fun s => batchAlpha rng0 0 * s)
      = List.replicate inst1.scalars.length (0 : F5) :=
  ⟨C4_alpha_no_rejection.1 F5 rng0 0,
   C4_alpha_no_rejection.2.1 F5 rng0 1 0 (List.replicate 4 0) inst1 [] (by decide),
   C4_alpha_no_rejection.2.2 F5 rng0 0 inst1 (by decide)⟩

/-- C4 counterexample: the sampler stream that draws `0` first is used
as-is — `batchAlpha` is `0`, the batch run still succeeds, and the zero
coefficient is what multiplies the instance's (all-one) scalars, so the
accumulated vector is identically zero; the claimed rejection-resampling
does not exist. -/
theorem C4_counterexample :
    batchAlpha rng0 0 = 0 ∧
    inst1.scalars.getD 4 0 = 1 ∧
    batch_all_scalars rng0 [inst1] = some [0, 0, 0, 0, 0] := by decide
